import Mathlib

/-!
Verification development for the `jsonlogprint` stream filter.

The definitions below are a shallow embedding of `src/jsonlogprint/src/main.rs`
(`json_to_logfmt`, `try_format_datetime`, `display_value_recursive`,
`process_line`, `transform_lines`), `src/jsonlogprint/src/styler.rs` and
`src/jsonlogprint/src/deser.rs`.  Rust machine integers are modelled as `Int`
with explicit range guards where the code checks ranges; the fallible
incremental writes of the Rust code are modelled as a list of chunks executed
against an error plan (each `write!`/`writeln!` call is one chunk, with the
Rust error discipline of `?` versus `.unwrap()` recorded per chunk).

Modelling notes (documented deviations, none load-bearing for the theorems):
* JSON numbers are modelled as integers; floating-point literals are outside
  the model (the model's parser rejects them, serde_json would accept them as
  `f64`).
* `chrono`'s calendar arithmetic is reimplemented with the standard civil-
  from-days algorithm; validity is year within `[-262144, 262143]` and
  nanoseconds below two billion, as documented for `DateTime::from_timestamp`.
-/

namespace JLP

mutual
/-- `JsonValue` from `deser.rs`: the closed variant type for JSON values plus
the `Removed` tombstone.  A nested object's `IndexMap<&str, JsonValue>` is an
insertion-ordered association list (`JFields`) and an array's `Vec` an ordered
list (`JItems`); both are inlined as a mutual inductive family so that all
recursion over values is structural. -/
inductive JsonValue where
  | string (s : String)
  | number (n : Int)
  | bool (b : Bool)
  | null
  | object (fields : JFields)
  | array (items : JItems)
  | removed
inductive JFields where
  | nil
  | cons (key : String) (value : JsonValue) (rest : JFields)
inductive JItems where
  | nil
  | cons (value : JsonValue) (rest : JItems)
end

instance : Inhabited JsonValue := ⟨.null⟩

/-- The top-level order-preserving field map populated by `IndexMapSeed`
(`IndexMap<&str, JsonValue>`). -/
abbrev JMap := List (String × JsonValue)

/-- `TimestampFormat` from `main.rs`. -/
inductive TimestampFormat where
  | auto | seconds | millis | raw
deriving Repr, DecidableEq

/-- `ColorOption` from `main.rs`. -/
inductive ColorOption where
  | always | auto | never
deriving Repr, DecidableEq

/-- The configuration consumed by `json_to_logfmt` (the relevant `Args`
fields). -/
structure Cfg where
  noKeyFields : List String
  timestampFormat : TimestampFormat
  timestampField : String
  levelField : String
deriving Repr

/-- The number of seconds between 1970 and 3000 (`YEAR_3K_EPOCH`). -/
def YEAR_3K_EPOCH : Int := 32503698000

/-! ## Decimal rendering (Rust's `Display` for integers) -/

/-- One decimal digit character. -/
def digit10 : Nat → Char
  | 0 => '0' | 1 => '1' | 2 => '2' | 3 => '3' | 4 => '4'
  | 5 => '5' | 6 => '6' | 7 => '7' | 8 => '8' | _ => '9'

/-- Fueled accumulator for decimal printing of a `Nat` (fuel is always
sufficient at the call site in `natDecimal`). -/
def natDecimalAux : Nat → Nat → List Char → List Char
  | 0, _, acc => acc
  | fuel + 1, n, acc =>
    let d := digit10 (n % 10)
    if n < 10 then d :: acc else natDecimalAux fuel (n / 10) (d :: acc)

/-- Decimal rendering of a natural number. -/
def natDecimal (n : Nat) : String := ⟨natDecimalAux (n + 1) n []⟩

/-- Decimal rendering of an integer: Rust's `{}` for `i64`. -/
def intDecimal (n : Int) : String :=
  if n < 0 then "-" ++ natDecimal (-n).toNat else natDecimal n.toNat

/-! ## Styler (`styler.rs`) -/

/-- A terminal style: the list of SGR parameters `owo_colors` would emit
(empty list = no styling). -/
structure Style where
  codes : List String
deriving Repr, DecidableEq

/-- Rendering a piece of text under a style: an empty style emits the text
verbatim, otherwise it is wrapped in the SGR prefix and the reset suffix. -/
def Style.paint (st : Style) (s : String) : String :=
  if st.codes.isEmpty then s
  else "\x1b[" ++ String.intercalate ";" st.codes ++ "m" ++ s ++ "\x1b[0m"

/-- `Styler`: carries the process-wide colorize decision. -/
structure Styler where
  colorize : Bool
deriving Repr, DecidableEq

/-- `Styler::new`: `Always` → on, `Never` → off, `Auto` → the terminal /
CI detection result (passed in as `autoDetect`, the code queries the
environment once per process). -/
def Styler.new (when : ColorOption) (autoDetect : Bool) : Styler :=
  { colorize :=
      match when with
      | .always => true
      | .auto => autoDetect
      | .never => false }

/-- `timestamp_style`: dimmed when colorizing, empty otherwise. -/
def Styler.timestampStyle (st : Styler) : Style :=
  if !st.colorize then ⟨[]⟩ else ⟨["2"]⟩

/-- `depth_style`: the 6-way cycle on `depth % 6` when colorizing. -/
def Styler.depthStyle (st : Styler) (depth : Nat) : Style :=
  if !st.colorize then ⟨[]⟩
  else
    match depth % 6 with
    | 0 => ⟨["34"]⟩
    | 1 => ⟨["36"]⟩
    | 2 => ⟨["32"]⟩
    | 3 => ⟨["34", "2"]⟩
    | 4 => ⟨["36", "2"]⟩
    | _ => ⟨["32", "2"]⟩

/-- ASCII-only lowercasing of one character (`unicase::Ascii` folds ASCII
letters only). -/
def asciiLower (c : Char) : Char :=
  if 'A' ≤ c ∧ c ≤ 'Z' then Char.ofNat (c.toNat + 32) else c

/-- ASCII-case-insensitive comparison used by `unicase::Ascii` in
`level_style`. -/
def asciiEq (a b : String) : Bool := a.data.map asciiLower == b.data.map asciiLower

/-- `level_style`: the case-insensitive level → style mapping. -/
def Styler.levelStyle (st : Styler) (level : String) : Style :=
  if !st.colorize then ⟨[]⟩
  else if asciiEq level "crit" || asciiEq level "critical" then ⟨["31", "1"]⟩
  else if asciiEq level "error" then ⟨["31"]⟩
  else if asciiEq level "warn" || asciiEq level "warning" then ⟨["33"]⟩
  else if asciiEq level "info" then ⟨["36"]⟩
  else if asciiEq level "debug" then ⟨["34", "2"]⟩
  else if asciiEq level "trace" then ⟨["2"]⟩
  else ⟨[]⟩

/-- `styler.level(...)` rendered to text. -/
def Styler.level (st : Styler) (s : String) : String := (st.levelStyle s).paint s

/-- `styler.depth(...)` rendered to text. -/
def Styler.depth (st : Styler) (val : String) (depth : Nat) : String :=
  (st.depthStyle depth).paint val

/-- `styler.depth_multi(...)` rendered to text: both parts share one style, and
`StyledList` merges them into a single styled span. -/
def Styler.depthMulti (st : Styler) (value extra : String) (depth : Nat) : String :=
  (st.depthStyle depth).paint (value ++ extra)

/-- `styler.timestamp(...)` rendered to text. -/
def Styler.timestamp (st : Styler) (s : String) : String :=
  (st.timestampStyle).paint s

/-! ## Calendar arithmetic (`chrono`'s `DateTime::<Utc>::from_timestamp`) -/

/-- A civil UTC date-time (what the formatting strings consume). -/
structure CivilDT where
  year : Int
  month : Nat
  day : Nat
  hour : Nat
  minute : Nat
  second : Nat
  nsec : Nat
deriving Repr, DecidableEq

/-- Days-since-epoch → (year, month, day), the standard civil-from-days
algorithm for the proleptic Gregorian calendar. -/
def civilFromDays (z0 : Int) : Int × Nat × Nat :=
  let z := z0 + 719468
  let era := z.fdiv 146097
  let doe := (z - era * 146097).toNat
  let yoe := (doe - doe / 1460 + doe / 36524 - doe / 146096) / 365
  let doy := doe - (365 * yoe + yoe / 4 - yoe / 100)
  let mp := (5 * doy + 2) / 153
  let d := doy - (153 * mp + 2) / 5 + 1
  let m := if mp < 10 then mp + 3 else mp - 9
  let y : Int := (yoe : Int) + era * 400 + (if m ≤ 2 then 1 else 0)
  (y, m, d)

/-- `DateTime::<Utc>::from_timestamp(secs, nsecs)`: `None` on an out-of-range
number of seconds (year outside chrono's `[-262144, 262143]`) or an invalid
nanosecond (two billion or more). -/
def fromTimestamp (secs : Int) (nsec : Nat) : Option CivilDT :=
  let days := secs.fdiv 86400
  let sod := (secs.emod 86400).toNat
  let ymd := civilFromDays days
  if 2000000000 ≤ nsec then none
  else if ymd.1 < -262144 ∨ 262143 < ymd.1 then none
  else some ⟨ymd.1, ymd.2.1, ymd.2.2, sod / 3600, (sod % 3600) / 60, sod % 60, nsec⟩

/-- Left-pad a decimal rendering with zeros to two digits (`%H`/`%M`/`%S`,
`%m`, `%d`). -/
def pad2 (n : Nat) : String := if n < 10 then "0" ++ natDecimal n else natDecimal n

/-- Zero-pad to 3 digits (`%3f` on the milliseconds). -/
def pad3 (n : Nat) : String :=
  if n < 10 then "00" ++ natDecimal n
  else if n < 100 then "0" ++ natDecimal n
  else natDecimal n

/-- chrono's `%Y`: zero-padded to 4 digits, a sign for negative years, a `+`
for years above 9999. -/
def pad4Year (y : Int) : String :=
  if y < 0 then "-" ++ pad4Nat (-y).toNat
  else if 9999 < y then "+" ++ natDecimal y.toNat
  else pad4Nat y.toNat
where
  pad4Nat (n : Nat) : String :=
    if n < 10 then "000" ++ natDecimal n
    else if n < 100 then "00" ++ natDecimal n
    else if n < 1000 then "0" ++ natDecimal n
    else natDecimal n

/-- The `"%Y-%m-%dT%H:%M:%SZ"` format. -/
def formatSecs (dt : CivilDT) : String :=
  pad4Year dt.year ++ "-" ++ pad2 dt.month ++ "-" ++ pad2 dt.day ++ "T" ++
    pad2 dt.hour ++ ":" ++ pad2 dt.minute ++ ":" ++ pad2 dt.second ++ "Z"

/-- The `"%Y-%m-%dT%H:%M:%S.%3fZ"` format. -/
def formatMillis (dt : CivilDT) : String :=
  pad4Year dt.year ++ "-" ++ pad2 dt.month ++ "-" ++ pad2 dt.day ++ "T" ++
    pad2 dt.hour ++ ":" ++ pad2 dt.minute ++ ":" ++ pad2 dt.second ++ "." ++
    pad3 (dt.nsec / 1000000) ++ "Z"

/-! ## Fallible writes as chunk traces -/

/-- The Rust error discipline of one `write!` call: `wtry` for `?`
(propagates an `io::Error`), `wunwrap` for `.unwrap()` (panics). -/
inductive WMode where
  | wtry | wunwrap
deriving Repr, DecidableEq

/-- One `write!`/`writeln!` call: the text it would emit and its error
discipline. -/
structure Chunk where
  text : String
  mode : WMode
deriving Repr, DecidableEq

/-- Outcome of executing a sequence of writes. -/
inductive Outcome where
  | ok | failed | panicked
deriving Repr, DecidableEq

/-- Execute a write trace against an error plan (`plan i` tells whether the
`i`-th write of the process succeeds).  Returns the text actually written, the
next write index and the outcome; execution stops at the first failing
write. -/
def execTrace (plan : Nat → Bool) : List Chunk → Nat → String → String × Nat × Outcome
  | [], i, acc => (acc, i, .ok)
  | c :: rest, i, acc =>
    if plan i then execTrace plan rest (i + 1) (acc ++ c.text)
    else
      match c.mode with
      | .wtry => (acc, i + 1, .failed)
      | .wunwrap => (acc, i + 1, .panicked)

/-- The text of a trace when every write succeeds. -/
def traceText (tr : List Chunk) : String := String.join (tr.map (·.text))

/-! ## `try_format_datetime` -/

/-- `(timestamp % 1000 * 1_000_000) as u32`: Rust truncated `%` followed by a
wrapping cast to `u32`. -/
def millisNsec (ts : Int) : Nat := ((ts.tmod 1000 * 1000000).emod 4294967296).toNat

/-- `try_format_datetime` as a write trace.  The `Some` branches use
`.unwrap()` in the source, the raw fallback uses `?`.  The `Raw` case is
`unreachable!` in the source (its callers guard on it); it is modelled as an
empty trace and never used. -/
def tryFormatDatetimeChunks (fmt : TimestampFormat) (ts : Int) (st : Styler) :
    List Chunk :=
  let conv : TimestampFormat × Option CivilDT :=
    match fmt with
    | .auto =>
      if YEAR_3K_EPOCH < ts then (.millis, fromTimestamp (ts.tdiv 1000) (millisNsec ts))
      else (.seconds, fromTimestamp ts 0)
    | .seconds => (.seconds, fromTimestamp ts 0)
    | .millis => (.millis, fromTimestamp (ts.tdiv 1000) (millisNsec ts))
    | .raw => (.raw, none)
  match conv with
  | (.seconds, some dt) => [⟨st.timestamp (formatSecs dt), .wunwrap⟩]
  | (.millis, some dt) => [⟨st.timestamp (formatMillis dt), .wunwrap⟩]
  | (.raw, _) => []
  | (_, _) => [⟨st.timestamp (intDecimal ts), .wtry⟩]

/-- The text `try_format_datetime` writes when all writes succeed. -/
def tfdText (fmt : TimestampFormat) (ts : Int) (st : Styler) : String :=
  traceText (tryFormatDatetimeChunks fmt ts st)

/-! ## `display_value_recursive` -/

/-- Rust's `str::contains(char)`, expressed over the character list so that
it evaluates by kernel reduction. -/
def hasChar (s : String) (c : Char) : Bool := s.data.contains c

/-- The string escaping of `display_value_recursive`:
`s.replace('\\', r"\\").replace('"', r#"\""#)` (the first pass doubles
backslashes, the second escapes the original quotes; per character the two
passes amount to this single map). -/
def escapeStr (s : String) : String :=
  ⟨s.data.foldr
    (fun c acc =>
      if c = '\\' then '\\' :: '\\' :: acc
      else if c = '"' then '\\' :: '"' :: acc
      else c :: acc) []⟩

mutual
/-- `display_value_recursive` as a write trace (every write in it uses `?`).
The scalar branches write `{colored_prefix}{sep}{value}` in a single call;
objects and arrays write the styled opener, the children separated by single
spaces, and the styled closer. -/
def displayValueRecursive : JsonValue → String → Nat → Styler → List Chunk
  | .string s, pfx, depth, st =>
    let cpfx := if pfx == "" then "" else st.depth pfx depth
    let sep := if pfx == "" then "" else "="
    if hasChar s ' ' || hasChar s '"' || hasChar s '\\' then
      [⟨cpfx ++ sep ++ "\"" ++ escapeStr s ++ "\"", .wtry⟩]
    else [⟨cpfx ++ sep ++ s, .wtry⟩]
  | .number n, pfx, depth, st =>
    let cpfx := if pfx == "" then "" else st.depth pfx depth
    let sep := if pfx == "" then "" else "="
    [⟨cpfx ++ sep ++ intDecimal n, .wtry⟩]
  | .bool b, pfx, depth, st =>
    let cpfx := if pfx == "" then "" else st.depth pfx depth
    let sep := if pfx == "" then "" else "="
    [⟨cpfx ++ sep ++ (if b then "true" else "false"), .wtry⟩]
  | .null, pfx, depth, st =>
    let cpfx := if pfx == "" then "" else st.depth pfx depth
    let sep := if pfx == "" then "" else "="
    [⟨cpfx ++ sep ++ "null", .wtry⟩]
  | .removed, _, _, _ => []
  | .object fields, pfx, depth, st =>
    [⟨st.depthMulti pfx "\x7b" depth, .wtry⟩] ++
      displayFieldsChunks fields true (depth + 1) st ++
      [⟨st.depth "\x7d" depth, .wtry⟩]
  | .array items, pfx, depth, st =>
    [⟨st.depthMulti pfx "[" depth, .wtry⟩] ++
      displayItemsChunks items true (depth + 1) st ++
      [⟨st.depth "]" depth, .wtry⟩]
termination_by structural v => v

/-- The object-children loop of `display_value_recursive`: a single space
before every child but the first, each child rendered with its key at
`depth + 1`. -/
def displayFieldsChunks : JFields → Bool → Nat → Styler → List Chunk
  | .nil, _, _, _ => []
  | .cons k v rest, first, depth, st =>
    (if !first then [⟨" ", .wtry⟩] else []) ++
      displayValueRecursive v k depth st ++
      displayFieldsChunks rest false depth st
termination_by structural l => l

/-- The array-children loop of `display_value_recursive`: children are
rendered with an empty key at `depth + 1`, separated by single spaces. -/
def displayItemsChunks : JItems → Bool → Nat → Styler → List Chunk
  | .nil, _, _, _ => []
  | .cons v rest, first, depth, st =>
    (if !first then [⟨" ", .wtry⟩] else []) ++
      displayValueRecursive v "" depth st ++
      displayItemsChunks rest false depth st
termination_by structural l => l
end

/-- The text `display_value_recursive` writes when all writes succeed. -/
def displayText (v : JsonValue) (pfx : String) (depth : Nat) (st : Styler) : String :=
  traceText (displayValueRecursive v pfx depth st)

/-! ## `json_to_logfmt` -/

/-- `map.get_mut(key)` (value part). -/
def lookupVal (m : JMap) (k : String) : Option JsonValue :=
  match m.find? (fun e => e.1 == k) with
  | some e => some e.2
  | none => none

/-- `*value = JsonValue::Removed` on the slot of `k` (keys are unique in an
`IndexMap`, so replacing every matching slot is the same operation). -/
def setRemoved (m : JMap) (k : String) : JMap :=
  m.map (fun e => if e.1 == k then (e.1, .removed) else e)

/-- `num.as_i64().unwrap_or_default()`: the number when it fits in `i64`,
otherwise 0. -/
def asI64 (n : Int) : Int :=
  if -(2 ^ 63) ≤ n ∧ n < 2 ^ 63 then n else 0

/-- Result of the priority-fields loop: the chunks written, the keys whose
value was rendered (in rendering order), the mutated map and the final
`first` flag. -/
structure PhaseRes where
  chunks : List Chunk
  keys : List String
  map : JMap
  first : Bool

/-- The priority-fields loop of `json_to_logfmt` (`for key in no_key_fields`).
Mirrors the source exactly: the separating space (or the `first` flip) happens
as soon as the key is found in the map, before the value's type is examined;
only `String` and `Number` values are rendered and tombstoned, every other
variant hits the `_ => continue` arm, leaving its slot intact. -/
def priorityPhase (cfg : Cfg) (st : Styler) :
    List String → JMap → Bool → PhaseRes
  | [], m, first => ⟨[], [], m, first⟩
  | k :: ks, m, first =>
    match lookupVal m k with
    | none => priorityPhase cfg st ks m first
    | some v =>
      let sp : List Chunk := if !first then [⟨" ", .wtry⟩] else []
      match v with
      | .string s =>
        let txt := if k == cfg.levelField then st.level s else s
        let r := priorityPhase cfg st ks (setRemoved m k) false
        ⟨sp ++ [⟨txt, .wtry⟩] ++ r.chunks, k :: r.keys, r.map, r.first⟩
      | .number n =>
        let body : List Chunk :=
          if k == cfg.timestampField then
            let ts := asI64 n
            if cfg.timestampFormat ≠ .raw then
              tryFormatDatetimeChunks cfg.timestampFormat ts st
            else [⟨intDecimal ts, .wtry⟩]
          else [⟨intDecimal n, .wtry⟩]
        let r := priorityPhase cfg st ks (setRemoved m k) false
        ⟨sp ++ body ++ r.chunks, k :: r.keys, r.map, r.first⟩
      | _ =>
        let r := priorityPhase cfg st ks m false
        ⟨sp ++ r.chunks, r.keys, r.map, r.first⟩

/-- Result of the body loop: chunks, keys rendered now, and the indices pushed
onto `newline_fields`. -/
structure BodyRes where
  chunks : List Chunk
  keys : List String
  nl : List Nat

/-- The body loop of `json_to_logfmt` (`for (index, (key, value)) in
storage.map.iter().enumerate()`): `Removed` slots are skipped, a top-level
string containing a line break is deferred by index, everything else is
rendered in place (the separating space uses `.unwrap()` in the source). -/
def bodyPhase (st : Styler) : List (Nat × String × JsonValue) → Bool → BodyRes
  | [], _ => ⟨[], [], []⟩
  | (i, k, v) :: rest, first =>
    match v with
    | .removed => bodyPhase st rest first
    | .string s =>
      if hasChar s '\n' then
        let r := bodyPhase st rest first
        ⟨r.chunks, r.keys, i :: r.nl⟩
      else
        let sp : List Chunk := if !first then [⟨" ", .wunwrap⟩] else []
        let r := bodyPhase st rest false
        ⟨sp ++ displayValueRecursive (.string s) k 0 st ++ r.chunks, k :: r.keys, r.nl⟩
    | v' =>
      let sp : List Chunk := if !first then [⟨" ", .wunwrap⟩] else []
      let r := bodyPhase st rest false
      ⟨sp ++ displayValueRecursive v' k 0 st ++ r.chunks, k :: r.keys, r.nl⟩

/-- The trailing loop of `json_to_logfmt` (`for index in &storage.newline_fields`):
a `writeln!` (unwrap) then the deferred field rendered at depth 0. -/
def newlinePhase (st : Styler) (m : JMap) : List Nat → List Chunk × List String
  | [] => ([], [])
  | i :: rest =>
    let e := m.getD i ("", .removed)
    let r := newlinePhase st m rest
    (⟨"\n", .wunwrap⟩ :: (displayValueRecursive e.2 e.1 0 st ++ r.1), e.1 :: r.2)

/-- `json_to_logfmt` as a write trace. -/
def jsonToLogfmtChunks (m : JMap) (cfg : Cfg) (st : Styler) : List Chunk :=
  let p := priorityPhase cfg st cfg.noKeyFields m true
  let b := bodyPhase st p.map.enum p.first
  let n := newlinePhase st p.map b.nl
  p.chunks ++ b.chunks ++ n.1

/-- The keys rendered by `json_to_logfmt`, in the order their values are
written (priority phase, then body, then deferred newline fields). -/
def renderedKeys (m : JMap) (cfg : Cfg) (st : Styler) : List String :=
  let p := priorityPhase cfg st cfg.noKeyFields m true
  let b := bodyPhase st p.map.enum p.first
  let n := newlinePhase st p.map b.nl
  p.keys ++ b.keys ++ n.2

/-- The full record text `json_to_logfmt` writes when all writes succeed
(without the trailing record terminator, which `process_line` adds). -/
def recordText (m : JMap) (cfg : Cfg) (st : Styler) : String :=
  traceText (jsonToLogfmtChunks m cfg st)

/-! ## The line parser

`process_line` hands the line to `serde_json::Deserializer::from_str` and
deserializes through `IndexMapSeed` (`deserialize_map`): leading whitespace is
skipped, the top-level value must be a JSON object, keys are deserialized as
borrowed `&str` (so a key containing any escape sequence is a parse error),
values as `JsonValue` (string values may contain escapes), and `insert` keeps
the first position of a repeated key while replacing its value.  No `end()`
check is performed, so trailing garbage after the object is ignored.

Documented deviation: numbers are modelled as integers only — a numeric
literal continuing with `.`/`e`/`E` is treated as a parse failure here,
whereas serde_json would parse it as an `f64`. -/

/-- JSON whitespace (`space`, `\t`, `\n`, `\r`). -/
def isJsonWs (c : Char) : Bool := c == ' ' || c == '\t' || c == '\n' || c == '\r'

/-- Skip JSON whitespace. -/
def skipWs : List Char → List Char
  | [] => []
  | c :: cs => if isJsonWs c then skipWs cs else c :: cs

/-- One hexadecimal digit. -/
def parseHex1 (c : Char) : Option Nat :=
  if '0' ≤ c ∧ c ≤ '9' then some (c.toNat - 48)
  else if 'a' ≤ c ∧ c ≤ 'f' then some (c.toNat - 87)
  else if 'A' ≤ c ∧ c ≤ 'F' then some (c.toNat - 55)
  else none

/-- Four hexadecimal digits (a `\uXXXX` code unit). -/
def parseHex4 : List Char → Option (Nat × List Char)
  | a :: b :: c :: d :: rest =>
    match parseHex1 a, parseHex1 b, parseHex1 c, parseHex1 d with
    | some x, some y, some z, some w => some ((((x * 16 + y) * 16 + z) * 16 + w), rest)
    | _, _, _, _ => none
  | _ => none

/-- The body of a JSON string value after the opening quote (escape sequences
allowed, raw control characters rejected, lone surrogates rejected). -/
def parseStringBody : Nat → List Char → List Char → Option (String × List Char)
  | 0, _, _ => none
  | fuel + 1, acc, cs =>
    match cs with
    | [] => none
    | c :: cs' =>
      if c == '"' then some (⟨acc.reverse⟩, cs')
      else if c == '\\' then
        match cs' with
        | [] => none
        | e :: cs'' =>
          if e == '"' then parseStringBody fuel ('"' :: acc) cs''
          else if e == '\\' then parseStringBody fuel ('\\' :: acc) cs''
          else if e == '/' then parseStringBody fuel ('/' :: acc) cs''
          else if e == 'b' then parseStringBody fuel ('\x08' :: acc) cs''
          else if e == 'f' then parseStringBody fuel ('\x0C' :: acc) cs''
          else if e == 'n' then parseStringBody fuel ('\n' :: acc) cs''
          else if e == 'r' then parseStringBody fuel ('\r' :: acc) cs''
          else if e == 't' then parseStringBody fuel ('\t' :: acc) cs''
          else if e == 'u' then
            match parseHex4 cs'' with
            | none => none
            | some (code, cs3) =>
              if 0xD800 ≤ code ∧ code ≤ 0xDBFF then
                match cs3 with
                | '\\' :: 'u' :: cs4 =>
                  match parseHex4 cs4 with
                  | some (lo, cs5) =>
                    if 0xDC00 ≤ lo ∧ lo ≤ 0xDFFF then
                      parseStringBody fuel
                        (Char.ofNat (0x10000 + (code - 0xD800) * 0x400 + (lo - 0xDC00)) :: acc)
                        cs5
                    else none
                  | none => none
                | _ => none
              else if 0xDC00 ≤ code ∧ code ≤ 0xDFFF then none
              else parseStringBody fuel (Char.ofNat code :: acc) cs3
          else none
      else if c.toNat < 0x20 then none
      else parseStringBody fuel (c :: acc) cs'

/-- The body of an object key after the opening quote: keys are borrowed
`&str`, so any escape sequence is a deserialization error. -/
def parseKeyBody : Nat → List Char → List Char → Option (String × List Char)
  | 0, _, _ => none
  | fuel + 1, acc, cs =>
    match cs with
    | [] => none
    | c :: cs' =>
      if c == '"' then some (⟨acc.reverse⟩, cs')
      else if c == '\\' then none
      else if c.toNat < 0x20 then none
      else parseKeyBody fuel (c :: acc) cs'

/-- Accumulate a run of decimal digits. -/
def parseDigitsAux : Nat → Nat → List Char → Nat × List Char
  | 0, n, cs => (n, cs)
  | fuel + 1, n, cs =>
    match cs with
    | c :: cs' =>
      if c.isDigit then parseDigitsAux fuel (n * 10 + (c.toNat - 48)) cs' else (n, cs)
    | [] => (n, cs)

/-- An integer literal (optional `-`, no leading zeros; a literal continuing
with `.`/`e`/`E` is a float, outside this model and treated as a failure). -/
def parseNumber (cs : List Char) : Option (Int × List Char) :=
  let signed : Bool × List Char :=
    match cs with
    | '-' :: r => (true, r)
    | _ => (false, cs)
  match signed.2 with
  | [] => none
  | c :: _ =>
    if !c.isDigit then none
    else
      let digits := parseDigitsAux signed.2.length 0 signed.2
      match digits.2 with
      | d :: _ =>
        if c == '0' ∧ d.isDigit then none
        else if d == '.' ∨ d == 'e' ∨ d == 'E' then none
        else some ((if signed.1 then -(digits.1 : Int) else (digits.1 : Int)), digits.2)
      | [] => some ((if signed.1 then -(digits.1 : Int) else (digits.1 : Int)), digits.2)

/-- Expect a literal run of characters. -/
def expectChars : List Char → List Char → Option (List Char)
  | [], cs => some cs
  | e :: es, c :: cs => if c == e then expectChars es cs else none
  | _ :: _, [] => none

/-- Does a nested object already have this key? -/
def JFields.hasKey : JFields → String → Bool
  | .nil, _ => false
  | .cons k _ rest, key => k == key || rest.hasKey key

/-- Replace the value stored under an existing key. -/
def JFields.setKey : JFields → String → JsonValue → JFields
  | .nil, _, _ => .nil
  | .cons k v rest, key, nv =>
    if k == key then .cons k nv (rest.setKey key nv) else .cons k v (rest.setKey key nv)

/-- Append one entry at the end. -/
def JFields.push : JFields → String → JsonValue → JFields
  | .nil, key, nv => .cons key nv .nil
  | .cons k v rest, key, nv => .cons k v (rest.push key nv)

/-- `IndexMap::insert`: replace in place if the key exists (keeping its
original position), otherwise append. -/
def JFields.insert (fs : JFields) (key : String) (v : JsonValue) : JFields :=
  if fs.hasKey key then fs.setKey key v else fs.push key v

/-- Nested-object entries as a list (the top-level map is kept as a list). -/
def JFields.toList : JFields → List (String × JsonValue)
  | .nil => []
  | .cons k v rest => (k, v) :: rest.toList

/-- Turn a parsed list of items into `JItems`. -/
def listToJItems : List JsonValue → JItems
  | [] => .nil
  | v :: rest => .cons v (listToJItems rest)

mutual
/-- One JSON value (after optional leading whitespace).  The fuel strictly
exceeds the remaining input length at every call, so it never runs out. -/
def parseValueF : Nat → List Char → Option (JsonValue × List Char)
  | 0, _ => none
  | fuel + 1, cs =>
    match skipWs cs with
    | [] => none
    | c :: rest =>
      if c == '"' then
        match parseStringBody (rest.length + 1) [] rest with
        | some (s, r) => some (.string s, r)
        | none => none
      else if c == '{' then
        match parseObjectF fuel false .nil rest with
        | some (m, r) => some (.object m, r)
        | none => none
      else if c == '[' then
        match parseArrayF fuel false [] rest with
        | some (l, r) => some (.array (listToJItems l), r)
        | none => none
      else if c == 't' then
        match expectChars ['r', 'u', 'e'] rest with
        | some r => some (.bool true, r)
        | none => none
      else if c == 'f' then
        match expectChars ['a', 'l', 's', 'e'] rest with
        | some r => some (.bool false, r)
        | none => none
      else if c == 'n' then
        match expectChars ['u', 'l', 'l'] rest with
        | some r => some (.null, r)
        | none => none
      else
        match parseNumber (c :: rest) with
        | some (n, r) => some (.number n, r)
        | none => none

/-- Object entries, positioned right after `{` (`afterComma = false`) or right
after a `,` (`afterComma = true`; a closing brace is then an error — no
trailing commas). -/
def parseObjectF : Nat → Bool → JFields → List Char → Option (JFields × List Char)
  | 0, _, _, _ => none
  | fuel + 1, afterComma, acc, cs =>
    match skipWs cs with
    | [] => none
    | c :: rest =>
      if c == '}' ∧ ¬afterComma then some (acc, rest)
      else if c == '"' then
        match parseKeyBody (rest.length + 1) [] rest with
        | none => none
        | some (k, r1) =>
          match skipWs r1 with
          | ':' :: r2 =>
            match parseValueF fuel r2 with
            | none => none
            | some (v, r3) =>
              match skipWs r3 with
              | ',' :: r4 => parseObjectF fuel true (acc.insert k v) r4
              | '}' :: r4 => some (acc.insert k v, r4)
              | _ => none
          | _ => none
      else none

/-- Array items, positioned right after `[` or after a `,`. -/
def parseArrayF : Nat → Bool → List JsonValue → List Char → Option (List JsonValue × List Char)
  | 0, _, _, _ => none
  | fuel + 1, afterComma, acc, cs =>
    match skipWs cs with
    | [] => none
    | c :: rest =>
      if c == ']' ∧ ¬afterComma then some (acc.reverse, rest)
      else
        match parseValueF fuel (c :: rest) with
        | none => none
        | some (v, r1) =>
          match skipWs r1 with
          | ',' :: r2 => parseArrayF fuel true (v :: acc) r2
          | ']' :: r2 => some ((v :: acc).reverse, r2)
          | _ => none
end
/-- The top-level map insert (`IndexMap::insert` on the reusable map): replace
in place keeping position, or append. -/
def mapInsert (m : JMap) (k : String) (v : JsonValue) : JMap :=
  if m.any (fun e => e.1 == k) then
    m.map (fun e => if e.1 == k then (k, v) else e)
  else m ++ [(k, v)]

/-- Top-level object entries for `IndexMapSeed::visit_map` (keys are borrowed
`&str`, values `JsonValue`, `insert` into the reusable `IndexMap`). -/
def parseTopObjectF : Nat → Bool → JMap → List Char → Option (JMap × List Char)
  | 0, _, _, _ => none
  | fuel + 1, afterComma, acc, cs =>
    match skipWs cs with
    | [] => none
    | c :: rest =>
      if c == '}' ∧ ¬afterComma then some (acc, rest)
      else if c == '"' then
        match parseKeyBody (rest.length + 1) [] rest with
        | none => none
        | some (k, r1) =>
          match skipWs r1 with
          | ':' :: r2 =>
            match parseValueF fuel r2 with
            | none => none
            | some (v, r3) =>
              match skipWs r3 with
              | ',' :: r4 => parseTopObjectF fuel true (mapInsert acc k v) r4
              | '}' :: r4 => some (mapInsert acc k v, r4)
              | _ => none
          | _ => none
      else none

/-- The deserialization `process_line` performs: skip leading whitespace,
require a top-level `{`, populate the reusable map.  Anything left after the
closing brace is ignored (`process_line` never calls `end()`). -/
def parseLine (line : String) : Option JMap :=
  match skipWs line.data with
  | '{' :: rest =>
    match parseTopObjectF (line.data.length + 1) false [] rest with
    | some (m, _) => some m
    | none => none
  | _ => none

/-! ## `process_line` and `transform_lines` -/

/-- `process_line`, given the plan of write successes and the index of the
next write of the process.  On a parse error the raw line is echoed
(`writeln!(out, "{}", json_line).unwrap()`); on success `json_to_logfmt` runs
and, if it signals a write error, the fallback `writeln!(out).unwrap()` and
`writeln!(out, "{}", json_line).unwrap()` run; in either non-panicking case
the unconditional `writeln!(out).unwrap()` record terminator follows.
Returns the bytes written, the next write index and the outcome
(`panicked` models an `.unwrap()` on a failed write aborting the process). -/
def processLine (plan : Nat → Bool) (i : Nat) (cfg : Cfg) (st : Styler)
    (line : String) : String × Nat × Outcome :=
  match parseLine line with
  | some m =>
    let r := execTrace plan (jsonToLogfmtChunks m cfg st) i ""
    match r.2.2 with
    | .ok =>
      let t := execTrace plan [⟨"\n", .wunwrap⟩] r.2.1 r.1
      t
    | .failed =>
      let t := execTrace plan
        [⟨"\n", .wunwrap⟩, ⟨line ++ "\n", .wunwrap⟩, ⟨"\n", .wunwrap⟩] r.2.1 r.1
      t
    | .panicked => r
  | none => execTrace plan [⟨line ++ "\n", .wunwrap⟩] i ""

/-- `transform_lines` over a list of already-read input lines: each line is
fully processed before the next; a panic stops the loop (it unwinds the whole
process). -/
def transformLines (plan : Nat → Bool) (cfg : Cfg) (st : Styler) :
    Nat → List String → String × Nat × Outcome
  | i, [] => ("", i, .ok)
  | i, l :: rest =>
    let r := processLine plan i cfg st l
    match r.2.2 with
    | .panicked => r
    | _ =>
      let r2 := transformLines plan cfg st r.2.1 rest
      (r.1 ++ r2.1, r2.2.1, r2.2.2)

/-- The plan under which every write succeeds (a healthy output stream). -/
def planOk : Nat → Bool := fun _ => true

/-- The text a line produces when every write succeeds. -/
def processLineStr (cfg : Cfg) (st : Styler) (line : String) : String :=
  (processLine planOk 0 cfg st line).1

/-! ## Statement-support definitions -/

/-- The default configuration of `Args` (the clap `default_value`s). -/
def defaultCfg : Cfg :=
  ⟨["time", "timestamp", "ts", "level", "msg", "message"], .auto, "timestamp", "level"⟩

/-- Is a slot the consumed tombstone? -/
def isRemoved : JsonValue → Bool
  | .removed => true
  | _ => false

/-- Is a value one of the two variants the priority loop renders? -/
def isStrOrNum : JsonValue → Bool
  | .string _ => true
  | .number _ => true
  | _ => false

/-- The map's keys are pairwise distinct (an `IndexMap` invariant). -/
def keysNodup (m : JMap) : Prop := (m.map (·.1)).Nodup

/-- No slot of the map holds the tombstone (true of every freshly parsed
map). -/
def noRemoved (m : JMap) : Prop := ∀ e ∈ m, isRemoved e.2 = false

/-- The state after the priority loop of `json_to_logfmt`. -/
def prioRes (m : JMap) (cfg : Cfg) (st : Styler) : PhaseRes :=
  priorityPhase cfg st cfg.noKeyFields m true

/-- The state after the body loop of `json_to_logfmt`. -/
def bodyRes (m : JMap) (cfg : Cfg) (st : Styler) : BodyRes :=
  bodyPhase st (prioRes m cfg st).map.enum (prioRes m cfg st).first

/-- The `newline_fields` indices collected by the body loop. -/
def nlIndices (m : JMap) (cfg : Cfg) (st : Styler) : List Nat :=
  (bodyRes m cfg st).nl

/-- The text one present priority field is rendered as by the priority loop
(spec-side restatement used to state the separator property). -/
def priorityFieldText (cfg : Cfg) (st : Styler) (k : String) : JsonValue → String
  | .string s => if k == cfg.levelField then st.level s else s
  | .number n =>
    if k == cfg.timestampField then
      if cfg.timestampFormat ≠ .raw then tfdText cfg.timestampFormat (asI64 n) st
      else intDecimal (asI64 n)
    else intDecimal n
  | _ => ""

/-- The rendered texts of the priority fields present in the map that the
priority loop renders (string or number values), in configured order. -/
def priorityRendersOn (cfg : Cfg) (st : Styler) (m : JMap) (ks : List String) :
    List String :=
  ks.filterMap (fun k =>
    match lookupVal m k with
    | some (.string s) => some (priorityFieldText cfg st k (.string s))
    | some (.number n) => some (priorityFieldText cfg st k (.number n))
    | _ => none)

/-- `x1 ++ " " ++ x2 ++ " " ++ ...`: single separating spaces, none leading or
trailing. -/
def sepSpaces : List String → String
  | [] => ""
  | x :: rest => x ++ String.join (rest.map (" " ++ ·))

/-- The indices the body loop defers, in closed form: positions whose value is
a top-level string containing a line break. -/
def nlSpec : List (Nat × String × JsonValue) → List Nat
  | [] => []
  | (j, _, JsonValue.string s) :: rest =>
    if hasChar s '
' then j :: nlSpec rest else nlSpec rest
  | _ :: rest => nlSpec rest

mutual
/-- No escape character (`'\x1b'`) occurs in any string of the value. -/
def escFreeV : JsonValue → Bool
  | .string s => !hasChar s '\x1b'
  | .object fields => escFreeF fields
  | .array items => escFreeI items
  | _ => true
/-- Esc-freedom for nested object entries (keys included). -/
def escFreeF : JFields → Bool
  | .nil => true
  | .cons k v rest => !hasChar k '\x1b' && escFreeV v && escFreeF rest
/-- Esc-freedom for array items. -/
def escFreeI : JItems → Bool
  | .nil => true
  | .cons v rest => escFreeV v && escFreeI rest
end

/-- Esc-freedom for a whole parsed map (keys and values). -/
def escFreeMap (m : JMap) : Bool :=
  m.all (fun e => !hasChar e.1 '\x1b' && escFreeV e.2)

/-- No chunk of a write trace contains the escape character. -/
def chunksEscFree (l : List Chunk) : Bool :=
  l.all (fun c => !hasChar c.text '\x1b')

/-! ## General helper lemmas -/

theorem string_mk_append (a b : List Char) :
    (⟨a ++ b⟩ : String) = (⟨a⟩ : String) ++ (⟨b⟩ : String) := rfl

theorem join_append (l1 l2 : List String) :
    String.join (l1 ++ l2) = String.join l1 ++ String.join l2 := by
  rw [String.join_eq, String.join_eq, String.join_eq, List.map_append,
    List.flatten_append, string_mk_append]

theorem traceText_append (a b : List Chunk) :
    traceText (a ++ b) = traceText a ++ traceText b := by
  rw [traceText, List.map_append, join_append]; rfl

theorem traceText_cons (c : Chunk) (l : List Chunk) :
    traceText (c :: l) = c.text ++ traceText l := by
  have : c :: l = [c] ++ l := rfl
  rw [this, traceText_append]
  simp [traceText, String.join]

theorem traceText_nil : traceText [] = "" := rfl

theorem lookupVal_nil (k : String) : lookupVal [] k = none := rfl

theorem lookupVal_cons (e : String × JsonValue) (rest : JMap) (k : String) :
    lookupVal (e :: rest) k = if e.1 == k then some e.2 else lookupVal rest k := by
  by_cases h : (e.1 == k) = true <;> simp [lookupVal, List.find?_cons, h]

theorem lookupVal_mem {m : JMap} {k : String} {v : JsonValue}
    (h : lookupVal m k = some v) : k ∈ m.map (·.1) := by
  induction m with
  | nil => simp [lookupVal_nil] at h
  | cons e rest ih =>
    rw [lookupVal_cons] at h
    by_cases hbe : (e.1 == k) = true
    · simp only [List.map_cons, List.mem_cons]
      exact Or.inl (eq_of_beq hbe).symm
    · rw [if_neg hbe] at h
      simp only [List.map_cons, List.mem_cons]
      exact Or.inr (ih h)

theorem setRemoved_cons (e : String × JsonValue) (rest : JMap) (k : String) :
    setRemoved (e :: rest) k =
      (if e.1 == k then (e.1, JsonValue.removed) else e) :: setRemoved rest k := rfl

theorem lookupVal_setRemoved_ne {m : JMap} {k k' : String} (h : k' ≠ k) :
    lookupVal (setRemoved m k) k' = lookupVal m k' := by
  induction m with
  | nil => rfl
  | cons e rest ih =>
    rw [setRemoved_cons]
    by_cases hbe : (e.1 == k) = true
    · have hk : e.1 = k := eq_of_beq hbe
      have hne : (e.1 == k') = false := by
        simp only [beq_eq_false_iff_ne, ne_eq, hk]
        exact fun hh => h hh.symm
      rw [if_pos hbe, lookupVal_cons, lookupVal_cons]
      simp only [hne, if_false, Bool.false_eq_true]
      exact ih
    · rw [if_neg hbe, lookupVal_cons, lookupVal_cons]
      by_cases hbe' : (e.1 == k') = true
      · rw [if_pos hbe', if_pos hbe']
      · rw [if_neg hbe', if_neg hbe']
        exact ih

theorem lookupVal_setRemoved_self {m : JMap} {k : String} {v : JsonValue}
    (h : lookupVal m k = some v) :
    lookupVal (setRemoved m k) k = some .removed := by
  induction m with
  | nil => simp [lookupVal_nil] at h
  | cons e rest ih =>
    rw [lookupVal_cons] at h
    rw [setRemoved_cons]
    by_cases hbe : (e.1 == k) = true
    · rw [if_pos hbe, lookupVal_cons]
      simp [hbe]
    · rw [if_neg hbe] at h
      rw [if_neg hbe, lookupVal_cons, if_neg hbe]
      exact ih h

theorem setRemoved_keys (m : JMap) (k : String) :
    (setRemoved m k).map (·.1) = m.map (·.1) := by
  induction m with
  | nil => rfl
  | cons e rest ih =>
    by_cases he : e.1 == k <;> simp [setRemoved, List.map, he] at ih ⊢ <;> exact ih

/-! ## Claim theorems -/

/-- C6: under the `Auto` timestamp format an integer above the year-3000
threshold `YEAR_3K_EPOCH = 32503698000` is formatted exactly as the `Millis`
format would, anything else exactly as `Seconds`; and when the chosen
conversion yields no valid calendar date-time (`fromTimestamp = none`), the
raw integer is printed wrapped in the timestamp style. -/
theorem c6_auto_threshold_and_fallback (ts : Int) (st : Styler) :
    YEAR_3K_EPOCH = 32503698000 ∧
    (tryFormatDatetimeChunks .auto ts st =
      if YEAR_3K_EPOCH < ts then tryFormatDatetimeChunks .millis ts st
      else tryFormatDatetimeChunks .seconds ts st) ∧
    (fromTimestamp ts 0 = none →
      tfdText .seconds ts st = st.timestamp (intDecimal ts)) ∧
    (fromTimestamp (ts.tdiv 1000) (millisNsec ts) = none →
      tfdText .millis ts st = st.timestamp (intDecimal ts)) := by
  refine ⟨rfl, ?_, ?_, ?_⟩
  · by_cases h : YEAR_3K_EPOCH < ts
    · rw [if_pos h]
      simp [tryFormatDatetimeChunks, h]
    · rw [if_neg h]
      simp [tryFormatDatetimeChunks, h]
  · intro h
    simp [tfdText, tryFormatDatetimeChunks, h, traceText, String.join]
  · intro h
    simp [tfdText, tryFormatDatetimeChunks, h, traceText, String.join]

/-- Witness for C6: `10^18` exceeds the threshold, and both conversions are
out of chrono's range, so the `Auto` path prints the raw integer. -/
theorem c6_witness :
    tfdText .auto 1000000000000000000 ⟨false⟩ = "1000000000000000000" := by
  have h := c6_auto_threshold_and_fallback 1000000000000000000 ⟨false⟩
  have h2 := h.2.1
  have h4 := h.2.2.2 (by decide)
  rw [if_pos (by decide)] at h2
  rw [tfdText] at h4 ⊢
  rw [h2, h4]
  decide

/-- Counterexample for C7: the input value `1627494000` under the `Millis`
format is `1970-01-19T20:04:54.000Z`, and the output does not contain
`2021-07-28T17:40:00.000Z` as claimed. -/
theorem c7_counterexample :
    tfdText .millis 1627494000 ⟨false⟩ = "1970-01-19T20:04:54.000Z" ∧
    ¬ ("2021-07-28T17:40:00.000Z".data <:+: (tfdText .millis 1627494000 ⟨false⟩).data) := by
  exact ⟨by decide, by decide⟩

set_option maxRecDepth 4000 in
/-- C7 as amended: `1627494000` under `Seconds` renders `2021-07-28T17:40:00Z`
(and a record containing it shows that text); the `Millis` rendering
`2021-07-28T17:40:00.000Z` requires the value `1627494000000`, while
`1627494000` under `Millis` gives `1970-01-19T20:04:54.000Z`. -/
theorem c7_amended :
    tfdText .seconds 1627494000 ⟨false⟩ = "2021-07-28T17:40:00Z" ∧
    tfdText .millis 1627494000000 ⟨false⟩ = "2021-07-28T17:40:00.000Z" ∧
    tfdText .millis 1627494000 ⟨false⟩ = "1970-01-19T20:04:54.000Z" ∧
    "2021-07-28T17:40:00Z".data <:+:
      (processLineStr ⟨["timestamp", "level"], .seconds, "timestamp", "level"⟩ ⟨false⟩
        "\x7b\"timestamp\":1627494000\x7d").data := by
  exact ⟨by decide, by decide, by decide, by decide⟩

/-- Counterexample for C2: the line `" {}"` does not start with `{`, yet it is
parsed (serde_json skips leading whitespace — there is no first-character
fast path in the code) and transformed to a single line terminator, not passed
through unchanged. -/
theorem c2_counterexample :
    (" {}").data.head? = some ' ' ∧ (' ' ≠ '{') ∧
    processLineStr defaultCfg ⟨false⟩ " {}" = "\n" ∧
    processLineStr defaultCfg ⟨false⟩ " {}" ≠ " {}" ++ "\n" := by
  exact ⟨rfl, by decide, by decide, by decide⟩

/-- C2 as amended: any line that fails to parse as a JSON object is echoed
unchanged followed by one line terminator, with nothing before it; in
particular any line whose first character is neither whitespace nor `{` fails
to parse. -/
theorem c2_passthrough (line : String) (cfg : Cfg) (st : Styler) :
    (parseLine line = none → processLineStr cfg st line = line ++ "\n") ∧
    (∀ c cs, line.data = c :: cs → isJsonWs c = false → c ≠ '{' →
      parseLine line = none) := by
  constructor
  · intro h
    simp [processLineStr, processLine, h, execTrace, planOk]
  · intro c cs hdata hws hbrace
    have hskip : skipWs (c :: cs) = c :: cs := by
      rw [skipWs, hws]
      simp
    rw [parseLine, hdata, hskip]
    split
    · rename_i heq
      exact absurd (List.cons_eq_cons.mp heq).1 hbrace
    · rfl

/-- Witness for C2 (amended): `"hello"` starts with `'h'`, fails to parse and
is passed through unchanged. -/
theorem c2_witness :
    processLineStr defaultCfg ⟨false⟩ "hello" = "hello" ++ "\n" :=
  (c2_passthrough "hello" defaultCfg ⟨false⟩).1
    ((c2_passthrough "hello" defaultCfg ⟨false⟩).2 'h' "ello".data rfl (by decide)
      (by decide))

/-- Counterexample for C4: a priority field holding a boolean is neither
rendered bare nor tombstoned by the priority loop (its `_ => continue` arm
skips both), and it later appears in the body phase as `key=value` — with a
leading space, because the priority loop already consumed the `first` flag. -/
theorem c4_counterexample :
    (prioRes [("a", .bool true)] ⟨["a"], .auto, "timestamp", "level"⟩ ⟨false⟩).chunks = [] ∧
    (prioRes [("a", .bool true)] ⟨["a"], .auto, "timestamp", "level"⟩ ⟨false⟩).keys = [] ∧
    (prioRes [("a", .bool true)] ⟨["a"], .auto, "timestamp", "level"⟩ ⟨false⟩).map
      = [("a", .bool true)] ∧
    recordText [("a", .bool true)] ⟨["a"], .auto, "timestamp", "level"⟩ ⟨false⟩
      = " a=true" := by
  exact ⟨rfl, rfl, rfl, by decide⟩

/-- C4 as amended: a priority field present in the map with a boolean or null
value is skipped by the priority loop — nothing is written for it there, its
slot is left intact (not set to the consumed marker) — and it is rendered by
the body phase with its `key=` prefix; the separator bookkeeping still counts
it, so the record begins with a space. -/
theorem c4_amended (k : String) (b : Bool) (fmt : TimestampFormat) (tsF lvF : String)
    (st : Styler) (hk : k ≠ "") :
    (priorityPhase ⟨[k], fmt, tsF, lvF⟩ st [k] [(k, .bool b)] true).chunks = [] ∧
    (priorityPhase ⟨[k], fmt, tsF, lvF⟩ st [k] [(k, .bool b)] true).keys = [] ∧
    (priorityPhase ⟨[k], fmt, tsF, lvF⟩ st [k] [(k, .bool b)] true).map = [(k, .bool b)] ∧
    recordText [(k, .bool b)] ⟨[k], fmt, tsF, lvF⟩ st =
      " " ++ st.depth k 0 ++ "=" ++ (if b then "true" else "false") ∧
    (priorityPhase ⟨[k], fmt, tsF, lvF⟩ st [k] [(k, .null)] true).map = [(k, .null)] ∧
    recordText [(k, .null)] ⟨[k], fmt, tsF, lvF⟩ st =
      " " ++ st.depth k 0 ++ "=" ++ "null" := by
  have hbk : (k == "") = false := by simpa using hk
  have hlook : ∀ v : JsonValue, lookupVal [(k, v)] k = some v := by
    intro v
    rw [lookupVal_cons]
    simp
  refine ⟨?_, ?_, ?_, ?_, ?_, ?_⟩ <;>
    simp [priorityPhase, hlook, recordText, jsonToLogfmtChunks, bodyPhase,
      newlinePhase, displayValueRecursive, hbk, traceText_cons, traceText_nil,
      traceText, String.join, prioRes, String.append_assoc]

/-- Witness for C4 (amended): the single-field map `{"a": true}` with priority
list `["a"]`. -/
theorem c4_witness :
    recordText [("a", .bool true)] ⟨["a"], .raw, "t", "l"⟩ ⟨false⟩ =
      " " ++ (Styler.depth ⟨false⟩ "a" 0) ++ "=" ++ "true" := by
  have h := c4_amended "a" true .raw "t" "l" ⟨false⟩ (by decide)
  simpa using h.2.2.2.1

theorem foldl_append_shift (l : List String) : ∀ a : String,
    List.foldl (fun r s => r ++ s) a l = a ++ List.foldl (fun r s => r ++ s) "" l := by
  induction l with
  | nil => intro a; simp
  | cons x t ih =>
    intro a
    rw [List.foldl_cons, ih, List.foldl_cons, ih ("" ++ x)]
    simp [String.append_assoc]

theorem intercalate_go_eq (R : List String) : ∀ acc : String,
    String.intercalate.go acc " " R = acc ++ String.join (R.map (" " ++ ·)) := by
  induction R with
  | nil => intro acc; simp [String.intercalate.go, String.join]
  | cons x rest ih =>
    intro acc
    rw [String.intercalate.go, ih]
    simp only [String.join, List.map_cons, List.foldl_cons]
    rw [foldl_append_shift (List.map (fun x => " " ++ x) rest) ("" ++ (" " ++ x))]
    simp [String.append_assoc]

theorem join_cons (x : String) (L : List String) :
    String.join (x :: L) = x ++ String.join L := by
  simp only [String.join, List.foldl_cons]
  rw [foldl_append_shift L ("" ++ x)]
  simp [String.append_assoc]

theorem sepSpaces_eq_intercalate (l : List String) :
    sepSpaces l = String.intercalate " " l := by
  cases l with
  | nil => rfl
  | cons x rest => rw [String.intercalate, intercalate_go_eq, sepSpaces]

theorem priorityRendersOn_setRemoved (cfg : Cfg) (st : Styler) (m : JMap)
    (k : String) (ks : List String) (hk : k ∉ ks) :
    priorityRendersOn cfg st (setRemoved m k) ks = priorityRendersOn cfg st m ks := by
  unfold priorityRendersOn
  apply List.filterMap_congr
  intro k' hk'
  have hne : k' ≠ k := by
    intro he
    exact hk (he ▸ hk')
  rw [lookupVal_setRemoved_ne hne]

/-- The priority loop's output, computed in closed form: when the `first` flag
is initially set, the rendered fields are joined with single separating
spaces; otherwise every rendered field is preceded by one space.  Requires a
duplicate-free priority list and that every priority field present in the map
holds a string or a number. -/
theorem priorityText_general (cfg : Cfg) (st : Styler) : ∀ (ks : List String) (m : JMap)
    (first : Bool), ks.Nodup →
    (∀ k ∈ ks, ∀ v, lookupVal m k = some v → isStrOrNum v = true) →
    traceText (priorityPhase cfg st ks m first).chunks =
      (if first then sepSpaces (priorityRendersOn cfg st m ks)
       else String.join ((priorityRendersOn cfg st m ks).map (" " ++ ·))) := by
  intro ks
  induction ks with
  | nil =>
    intro m first _ _
    cases first <;>
      simp [priorityPhase, priorityRendersOn, sepSpaces, traceText, String.join]
  | cons k ks ih =>
    intro m first hnd hsn
    have hk_not : k ∉ ks := (List.nodup_cons.mp hnd).1
    have hnd' : ks.Nodup := (List.nodup_cons.mp hnd).2
    cases hl : lookupVal m k with
    | none =>
      have hsame : priorityRendersOn cfg st m (k :: ks) = priorityRendersOn cfg st m ks := by
        simp [priorityRendersOn, List.filterMap_cons, hl]
      rw [hsame, priorityPhase, hl]
      exact ih m first hnd' (fun k' h' => hsn k' (List.mem_cons_of_mem _ h'))
    | some v =>
      have hsv : isStrOrNum v = true := hsn k (List.mem_cons_self _ _) v hl
      have hpres : ∀ k' ∈ ks, ∀ v', lookupVal (setRemoved m k) k' = some v' →
          isStrOrNum v' = true := by
        intro k' h' v' hv'
        have hne : k' ≠ k := by
          intro he
          exact hk_not (he ▸ h')
        rw [lookupVal_setRemoved_ne hne] at hv'
        exact hsn k' (List.mem_cons_of_mem _ h') v' hv'
      have hrend := priorityRendersOn_setRemoved cfg st m k ks hk_not
      cases v with
      | string s =>
        have hrl : priorityRendersOn cfg st m (k :: ks) =
            priorityFieldText cfg st k (.string s) :: priorityRendersOn cfg st m ks := by
          simp [priorityRendersOn, List.filterMap_cons, hl, priorityFieldText]
        have ihr := ih (setRemoved m k) false hnd' hpres
        rw [hrend] at ihr
        simp only [Bool.false_eq_true, if_false] at ihr
        rw [hrl, priorityPhase, hl]
        cases first with
        | true =>
          simp only [if_pos]
          rw [sepSpaces]
          simp only [Bool.not_true, Bool.false_eq_true, if_false, List.nil_append,
            traceText_append, traceText_cons, traceText_nil, ihr]
          simp [priorityFieldText, String.append_assoc]
        | false =>
          simp only [Bool.false_eq_true, if_false, List.map_cons, join_cons]
          simp only [Bool.not_false, if_pos, traceText_append, traceText_cons,
            traceText_nil, ihr]
          simp [priorityFieldText, String.append_assoc]
      | number n =>
        have hrl : priorityRendersOn cfg st m (k :: ks) =
            priorityFieldText cfg st k (.number n) :: priorityRendersOn cfg st m ks := by
          simp [priorityRendersOn, List.filterMap_cons, hl]
        have ihr := ih (setRemoved m k) false hnd' hpres
        rw [hrend] at ihr
        simp only [Bool.false_eq_true, if_false] at ihr
        have hbodyText : traceText
            (if k == cfg.timestampField then
              if cfg.timestampFormat ≠ .raw then
                tryFormatDatetimeChunks cfg.timestampFormat (asI64 n) st
              else [⟨intDecimal (asI64 n), .wtry⟩]
            else [⟨intDecimal n, .wtry⟩]) = priorityFieldText cfg st k (.number n) := by
          by_cases h1 : (k == cfg.timestampField) = true
          · by_cases h2 : cfg.timestampFormat = .raw
            · simp [h1, h2, priorityFieldText, traceText_cons, traceText_nil]
            · simp [h1, h2, priorityFieldText, tfdText]
          · simp [h1, priorityFieldText, traceText_cons, traceText_nil]
        rw [hrl, priorityPhase, hl]
        cases first with
        | true =>
          simp only [if_pos]
          rw [sepSpaces]
          simp only [Bool.not_true, Bool.false_eq_true, if_false, List.nil_append,
            traceText_append, ihr, hbodyText]
        | false =>
          simp only [Bool.false_eq_true, if_false, List.map_cons, join_cons]
          simp only [Bool.not_false, if_pos, traceText_append, traceText_cons,
            traceText_nil, ihr, hbodyText]
          simp [String.append_assoc]
      | bool b => simp [isStrOrNum] at hsv
      | null => simp [isStrOrNum] at hsv
      | object fields => simp [isStrOrNum] at hsv
      | array items => simp [isStrOrNum] at hsv
      | removed => simp [isStrOrNum] at hsv

/-- Counterexample for C5: priority list `["a", "b"]` against
`{"a": true, "b": 5}` — the boolean field consumes the `first` flag without
rendering, so the priority-phase output is `" 5"`, which begins with a
space. -/
theorem c5_counterexample :
    traceText (prioRes [("a", .bool true), ("b", .number 5)]
      ⟨["a", "b"], .raw, "t", "l"⟩ ⟨false⟩).chunks = " 5" ∧
    (" 5").data.head? = some ' ' := ⟨by decide, rfl⟩

/-- C5 as amended: provided the priority list has no duplicate names and every
priority field present in the map holds a string or a number, the
priority-phase output is exactly the rendered fields joined by single
separating spaces — no leading or trailing separator.  (A priority field of
any other type, or a duplicated name whose first occurrence was consumed,
still uses up a separator slot and can introduce a leading or doubled
space.) -/
theorem c5_amended (m : JMap) (cfg : Cfg) (st : Styler)
    (h1 : cfg.noKeyFields.Nodup)
    (h2 : ∀ k ∈ cfg.noKeyFields, ∀ v, lookupVal m k = some v → isStrOrNum v = true) :
    traceText (prioRes m cfg st).chunks =
      String.intercalate " " (priorityRendersOn cfg st m cfg.noKeyFields) := by
  rw [prioRes, priorityText_general cfg st cfg.noKeyFields m true h1 h2,
    if_pos rfl, sepSpaces_eq_intercalate]

/-- Witness for C5 (amended): two present string priority fields joined by one
space. -/
theorem c5_witness :
    traceText (prioRes [("msg", .string "hi"), ("level", .string "info")]
      ⟨["level", "msg"], .raw, "t", "level"⟩ ⟨false⟩).chunks =
      String.intercalate " "
        (priorityRendersOn ⟨["level", "msg"], .raw, "t", "level"⟩ ⟨false⟩
          [("msg", .string "hi"), ("level", .string "info")] ["level", "msg"]) := by
  apply c5_amended
  · decide
  · intro k hk v hv
    fin_cases hk
    · rw [show lookupVal [("msg", JsonValue.string "hi"), ("level", JsonValue.string "info")]
          "level" = some (JsonValue.string "info") from rfl] at hv
      cases hv
      rfl
    · rw [show lookupVal [("msg", JsonValue.string "hi"), ("level", JsonValue.string "info")]
          "msg" = some (JsonValue.string "hi") from rfl] at hv
      cases hv
      rfl

theorem bodyPhase_nl_eq_spec (st : Styler) : ∀ (L : List (Nat × String × JsonValue))
    (first : Bool), (bodyPhase st L first).nl = nlSpec L := by
  intro L
  induction L with
  | nil => intro first; rfl
  | cons e rest ih =>
    intro first
    obtain ⟨j, k, v⟩ := e
    cases v with
    | string s =>
      by_cases hnl : hasChar s '\n' = true <;>
        simp [bodyPhase, nlSpec, hnl, ih]
    | removed => simp [bodyPhase, nlSpec, ih]
    | number n => simp [bodyPhase, nlSpec, ih]
    | bool b => simp [bodyPhase, nlSpec, ih]
    | null => simp [bodyPhase, nlSpec, ih]
    | object fs => simp [bodyPhase, nlSpec, ih]
    | array its => simp [bodyPhase, nlSpec, ih]

theorem nlSpec_mem : ∀ (L : List (Nat × String × JsonValue)) (i : Nat),
    i ∈ nlSpec L ↔ ∃ k s, (i, (k, JsonValue.string s)) ∈ L ∧ hasChar s '\n' = true := by
  intro L
  induction L with
  | nil => intro i; simp [nlSpec]
  | cons e rest ih =>
    intro i
    obtain ⟨j, k, v⟩ := e
    cases v with
    | string s =>
      cases hnl : hasChar s '\n' <;> simp [nlSpec, hnl, ih, List.mem_cons] <;> aesop
    | removed => simp [nlSpec, ih, List.mem_cons]
    | number n => simp [nlSpec, ih, List.mem_cons]
    | bool b => simp [nlSpec, ih, List.mem_cons]
    | null => simp [nlSpec, ih, List.mem_cons]
    | object fs => simp [nlSpec, ih, List.mem_cons]
    | array its => simp [nlSpec, ih, List.mem_cons]

theorem nl_mem_char (m : JMap) (cfg : Cfg) (st : Styler) (i : Nat) :
    i ∈ nlIndices m cfg st ↔
      ∃ k s, (prioRes m cfg st).map[i]? = some (k, JsonValue.string s) ∧
        hasChar s '\n' = true := by
  rw [nlIndices, bodyRes, bodyPhase_nl_eq_spec, nlSpec_mem]
  constructor
  · rintro ⟨k, s, hmem, h⟩
    exact ⟨k, s, List.mk_mem_enum_iff_getElem?.mp hmem, h⟩
  · rintro ⟨k, s, hmem, h⟩
    exact ⟨k, s, List.mk_mem_enum_iff_getElem?.mpr hmem, h⟩

theorem newlinePhase_text (st : Styler) (m : JMap) : ∀ nl : List Nat,
    traceText (newlinePhase st m nl).1 =
      String.join (nl.map (fun i =>
        "\n" ++ displayText (m.getD i ("", .removed)).2 (m.getD i ("", .removed)).1 0 st)) := by
  intro nl
  induction nl with
  | nil => rfl
  | cons i rest ih =>
    rw [newlinePhase]
    simp only [List.map_cons, join_cons, traceText_cons, traceText_append, ih, displayText]
    simp [String.append_assoc]

/-- C3 as amended: the record text is the priority output, then the body
output, then — after all other fields — each deferred field on its own line,
rendered by `display_value_recursive` with its key as the prefix; and a field
is deferred exactly when the body loop meets a top-level string value
containing a line break (in particular a priority-listed string field with a
line break is written inline by the priority loop and never deferred — see the
counterexample). -/
theorem c3_deferral (m : JMap) (cfg : Cfg) (st : Styler) :
    (recordText m cfg st =
      traceText (prioRes m cfg st).chunks ++ traceText (bodyRes m cfg st).chunks ++
        String.join ((nlIndices m cfg st).map (fun i =>
          "\n" ++ displayText ((prioRes m cfg st).map.getD i ("", .removed)).2
            ((prioRes m cfg st).map.getD i ("", .removed)).1 0 st))) ∧
    (∀ i, i ∈ nlIndices m cfg st ↔ ∃ k s,
      (prioRes m cfg st).map[i]? = some (k, JsonValue.string s) ∧
        hasChar s '\n' = true) := by
  constructor
  · rw [recordText, jsonToLogfmtChunks]
    simp only [traceText_append]
    rw [← newlinePhase_text]
    rfl
  · exact fun i => nl_mem_char m cfg st i

/-- Counterexample for C3: a priority-listed field whose string contains a
line break is rendered inline in its priority position (raw, no key prefix,
not deferred to the end as the claim states). -/
theorem c3_counterexample :
    recordText [("msg", .string "a\nb")] ⟨["msg"], .auto, "t", "l"⟩ ⟨false⟩ = "a\nb" ∧
    nlIndices [("msg", .string "a\nb")] ⟨["msg"], .auto, "t", "l"⟩ ⟨false⟩ = [] := by
  exact ⟨by decide, rfl⟩

/-- C10: the newline-deferral check inspects only top-level string values —
every deferred index holds a top-level string with a line break, an object- or
array-valued field is never deferred, and a nested string containing a line
break is rendered inline in its normal position (the concrete record shows the
line break in the middle of the line, with later fields after it). -/
theorem c10_nested_newlines_inline (m : JMap) (cfg : Cfg) (st : Styler) :
    (∀ i ∈ nlIndices m cfg st, ∃ k s,
       (prioRes m cfg st).map[i]? = some (k, JsonValue.string s) ∧
         hasChar s '\n' = true) ∧
    (∀ i k fs, (prioRes m cfg st).map[i]? = some (k, JsonValue.object fs) →
       i ∉ nlIndices m cfg st) ∧
    (∀ i k its, (prioRes m cfg st).map[i]? = some (k, JsonValue.array its) →
       i ∉ nlIndices m cfg st) ∧
    recordText [("msg", .object (.cons "inner" (.string "a\nb") .nil)), ("z", .number 1)]
      ⟨[], .auto, "t", "l"⟩ ⟨false⟩ = "msg\x7binner=a\nb\x7d z=1" ∧
    nlIndices [("msg", .object (.cons "inner" (.string "a\nb") .nil)), ("z", .number 1)]
      ⟨[], .auto, "t", "l"⟩ ⟨false⟩ = [] := by
  refine ⟨?_, ?_, ?_, by decide, rfl⟩
  · intro i hi
    exact (nl_mem_char m cfg st i).mp hi
  · intro i k fs hobj hi
    obtain ⟨k', s, hstr, _⟩ := (nl_mem_char m cfg st i).mp hi
    rw [hobj] at hstr
    simp at hstr
  · intro i k its harr hi
    obtain ⟨k', s, hstr, _⟩ := (nl_mem_char m cfg st i).mp hi
    rw [harr] at hstr
    simp at hstr

/-- Witness for C10: a field whose value is an object (containing a
newline-bearing nested string) is not deferred. -/
theorem c10_witness :
    (0 : Nat) ∉ nlIndices
      [("msg", JsonValue.object (.cons "inner" (.string "a\nb") .nil))]
      ⟨[], .auto, "t", "l"⟩ ⟨false⟩ :=
  (c10_nested_newlines_inline _ _ _).2.1 0 "msg" _ rfl

/-- C9: for a line that parses as a JSON object, if `json_to_logfmt` stops
with a propagated write error after having written `w`, `process_line` falls
back to a blank line followed by the raw original line (then the record
terminator), does not panic, and `transform_lines` goes on to process the
remaining lines. -/
theorem c9_render_failure_fallback (plan : Nat → Bool) (i : Nat) (cfg : Cfg) (st : Styler)
    (line : String) (m : JMap) (w : String) (i' : Nat)
    (hp : parseLine line = some m)
    (hr : execTrace plan (jsonToLogfmtChunks m cfg st) i "" = (w, i', .failed))
    (h1 : plan i' = true) (h2 : plan (i' + 1) = true) (h3 : plan (i' + 2) = true) :
    processLine plan i cfg st line = (w ++ "\n" ++ (line ++ "\n") ++ "\n", i' + 3, .ok) ∧
    ∀ rest, transformLines plan cfg st i (line :: rest) =
      ((w ++ "\n" ++ (line ++ "\n") ++ "\n") ++ (transformLines plan cfg st (i' + 3) rest).1,
       (transformLines plan cfg st (i' + 3) rest).2.1,
       (transformLines plan cfg st (i' + 3) rest).2.2) := by
  have hpl : processLine plan i cfg st line =
      (w ++ "\n" ++ (line ++ "\n") ++ "\n", i' + 3, .ok) := by
    rw [processLine, hp]
    simp only [hr, execTrace, h1, h2, h3, if_pos]
  refine ⟨hpl, ?_⟩
  intro rest
  rw [transformLines, hpl]

/-- Witness for C9: with the first write failing, the map `{"a": "x"}`
produces the blank-line-then-raw-line fallback and processing continues. -/
theorem c9_witness :
    processLine (fun n => decide (0 < n)) 0 ⟨[], .auto, "t", "l"⟩ ⟨false⟩ "\x7b\"a\":\"x\"\x7d" =
      ("" ++ "\n" ++ ("\x7b\"a\":\"x\"\x7d" ++ "\n") ++ "\n", 4, .ok) := by
  have h := c9_render_failure_fallback (fun n => decide (0 < n)) 0 ⟨[], .auto, "t", "l"⟩
    ⟨false⟩ "\x7b\"a\":\"x\"\x7d" [("a", .string "x")] "" 1 rfl (by decide) (by decide) (by decide)
    (by decide)
  exact h.1


/-- One consumed priority field: bookkeeping for the tombstone map, the
origin of each rendered key, and key distinctness. -/
theorem prio_step_core (k : String) (m : JMap) (v : JsonValue)
    (hl : lookupVal m k = some v) (hsv : isStrOrNum v = true)
    (keys' : List String) (map' : JMap)
    (hmap' : map' = (setRemoved m k).map
      (fun e => if e.1 ∈ keys' then (e.1, JsonValue.removed) else e))
    (hkm : ∀ k' ∈ keys', ∃ v', lookupVal (setRemoved m k) k' = some v' ∧
      isStrOrNum v' = true)
    (hnd : keys'.Nodup) :
    map' = m.map (fun e => if e.1 ∈ (k :: keys') then (e.1, JsonValue.removed) else e) ∧
    (∀ k' ∈ k :: keys', ∃ v', lookupVal m k' = some v' ∧ isStrOrNum v' = true) ∧
    (k :: keys').Nodup := by
  have hknot : k ∉ keys' := by
    intro hk
    obtain ⟨v', hv', hsv'⟩ := hkm k hk
    rw [lookupVal_setRemoved_self hl] at hv'
    cases hv'
    simp [isStrOrNum] at hsv'
  refine ⟨?_, ?_, ?_⟩
  · rw [hmap', setRemoved, List.map_map]
    apply List.map_congr_left
    intro e _
    by_cases hek : (e.1 == k) = true
    · have he : e.1 = k := eq_of_beq hek
      simp [Function.comp, hek, he, List.mem_cons]
    · have hne : e.1 ≠ k := by simpa using hek
      by_cases hmem : e.1 ∈ keys'
      · simp [Function.comp, hek, hmem, List.mem_cons]
      · simp [Function.comp, hek, hmem, List.mem_cons, hne]
  · intro k' hk'
    rcases List.mem_cons.mp hk' with rfl | hmem
    · exact ⟨v, hl, hsv⟩
    · obtain ⟨v', hv', hsv'⟩ := hkm k' hmem
      have hne : k' ≠ k := by
        rintro rfl
        rw [lookupVal_setRemoved_self hl] at hv'
        cases hv'
        simp [isStrOrNum] at hsv'
      rw [lookupVal_setRemoved_ne hne] at hv'
      exact ⟨v', hv', hsv'⟩
  · exact List.nodup_cons.mpr ⟨hknot, hnd⟩

/-- The priority loop tombstones exactly the keys it rendered, every rendered
key pointed at a string- or number-valued slot of the original map, and no key
is rendered twice. -/
theorem priorityPhase_spec (cfg : Cfg) (st : Styler) : ∀ (ks : List String) (m : JMap)
    (first : Bool),
    (priorityPhase cfg st ks m first).map =
      m.map (fun e => if e.1 ∈ (priorityPhase cfg st ks m first).keys
                      then (e.1, JsonValue.removed) else e) ∧
    (∀ k ∈ (priorityPhase cfg st ks m first).keys,
       ∃ v, lookupVal m k = some v ∧ isStrOrNum v = true) ∧
    (priorityPhase cfg st ks m first).keys.Nodup := by
  intro ks
  induction ks with
  | nil =>
    intro m first
    refine ⟨by simp [priorityPhase], by simp [priorityPhase], by simp [priorityPhase]⟩
  | cons k ks ih =>
    intro m first
    cases hl : lookupVal m k with
    | none =>
      have heq : priorityPhase cfg st (k :: ks) m first = priorityPhase cfg st ks m first := by
        rw [priorityPhase, hl]
      rw [heq]
      exact ih m first
    | some v =>
      cases v with
      | string s =>
        have hkeys : (priorityPhase cfg st (k :: ks) m first).keys =
            k :: (priorityPhase cfg st ks (setRemoved m k) false).keys := by
          simp [priorityPhase, hl]
        have hmap : (priorityPhase cfg st (k :: ks) m first).map =
            (priorityPhase cfg st ks (setRemoved m k) false).map := by
          simp [priorityPhase, hl]
        obtain ⟨ihm, ihk, ihn⟩ := ih (setRemoved m k) false
        rw [hkeys, hmap]
        exact prio_step_core k m (.string s) hl rfl _ _ ihm ihk ihn
      | number n =>
        have hkeys : (priorityPhase cfg st (k :: ks) m first).keys =
            k :: (priorityPhase cfg st ks (setRemoved m k) false).keys := by
          simp [priorityPhase, hl]
        have hmap : (priorityPhase cfg st (k :: ks) m first).map =
            (priorityPhase cfg st ks (setRemoved m k) false).map := by
          simp [priorityPhase, hl]
        obtain ⟨ihm, ihk, ihn⟩ := ih (setRemoved m k) false
        rw [hkeys, hmap]
        exact prio_step_core k m (.number n) hl rfl _ _ ihm ihk ihn
      | bool b =>
        have hkeys : (priorityPhase cfg st (k :: ks) m first).keys =
            (priorityPhase cfg st ks m false).keys := by
          simp [priorityPhase, hl]
        have hmap : (priorityPhase cfg st (k :: ks) m first).map =
            (priorityPhase cfg st ks m false).map := by
          simp [priorityPhase, hl]
        rw [hkeys, hmap]
        exact ih m false
      | null =>
        have hkeys : (priorityPhase cfg st (k :: ks) m first).keys =
            (priorityPhase cfg st ks m false).keys := by
          simp [priorityPhase, hl]
        have hmap : (priorityPhase cfg st (k :: ks) m first).map =
            (priorityPhase cfg st ks m false).map := by
          simp [priorityPhase, hl]
        rw [hkeys, hmap]
        exact ih m false
      | object fs =>
        have hkeys : (priorityPhase cfg st (k :: ks) m first).keys =
            (priorityPhase cfg st ks m false).keys := by
          simp [priorityPhase, hl]
        have hmap : (priorityPhase cfg st (k :: ks) m first).map =
            (priorityPhase cfg st ks m false).map := by
          simp [priorityPhase, hl]
        rw [hkeys, hmap]
        exact ih m false
      | array its =>
        have hkeys : (priorityPhase cfg st (k :: ks) m first).keys =
            (priorityPhase cfg st ks m false).keys := by
          simp [priorityPhase, hl]
        have hmap : (priorityPhase cfg st (k :: ks) m first).map =
            (priorityPhase cfg st ks m false).map := by
          simp [priorityPhase, hl]
        rw [hkeys, hmap]
        exact ih m false
      | removed =>
        have hkeys : (priorityPhase cfg st (k :: ks) m first).keys =
            (priorityPhase cfg st ks m false).keys := by
          simp [priorityPhase, hl]
        have hmap : (priorityPhase cfg st (k :: ks) m first).map =
            (priorityPhase cfg st ks m false).map := by
          simp [priorityPhase, hl]
        rw [hkeys, hmap]
        exact ih m false


theorem newlinePhase_keys (st : Styler) (m : JMap) : ∀ nl : List Nat,
    (newlinePhase st m nl).2 = nl.map (fun i => (m.getD i ("", .removed)).1) := by
  intro nl
  induction nl with
  | nil => rfl
  | cons i rest ih =>
    rw [newlinePhase]
    simp [ih]


/-- The body and newline phases together render exactly the keys of the
non-tombstoned slots, once each (as a permutation). -/
theorem body_newline_keys (st : Styler) (mfull : JMap) :
    ∀ (l : List (String × JsonValue)) (start : Nat) (first : Bool),
    (∀ j, l[j]? = mfull[start + j]?) →
    ((bodyPhase st (List.enumFrom start l) first).keys ++
      (nlSpec (List.enumFrom start l)).map (fun i => (mfull.getD i ("", .removed)).1)).Perm
      ((l.filter (fun e => !isRemoved e.2)).map (·.1)) := by
  intro l
  induction l with
  | nil =>
    intro start first _
    simp [bodyPhase, nlSpec]
  | cons e rest ih =>
    intro start first hd
    have h0 : mfull[start]? = some e := by
      have h1 := hd 0
      rw [Nat.add_zero] at h1
      simpa using h1.symm
    have hget : mfull.getD start ("", .removed) = e := by
      simp [List.getD_eq_getElem?_getD, h0]
    have hd' : ∀ j, rest[j]? = mfull[start + 1 + j]? := by
      intro j
      have h1 := hd (j + 1)
      rw [List.getElem?_cons_succ] at h1
      rw [h1]
      congr 1
      omega
    obtain ⟨k, v⟩ := e
    rw [List.enumFrom]
    cases v with
    | string s =>
      by_cases hnl : hasChar s '\n' = true
      · have hbk : (bodyPhase st ((start, (k, JsonValue.string s)) ::
            List.enumFrom (start + 1) rest) first).keys =
            (bodyPhase st (List.enumFrom (start + 1) rest) first).keys := by
          simp [bodyPhase, hnl]
        have hns : nlSpec ((start, (k, JsonValue.string s)) ::
            List.enumFrom (start + 1) rest) =
            start :: nlSpec (List.enumFrom (start + 1) rest) := by
          simp [nlSpec, hnl]
        rw [hbk, hns, List.map_cons, hget]
        have hfl : ((k, JsonValue.string s) :: rest).filter (fun e => !isRemoved e.2) =
            (k, JsonValue.string s) :: rest.filter (fun e => !isRemoved e.2) := by
          simp [List.filter_cons, isRemoved]
        rw [hfl, List.map_cons]
        exact List.perm_middle.trans ((ih (start + 1) first hd').cons _)
      · have hbk : (bodyPhase st ((start, (k, JsonValue.string s)) ::
            List.enumFrom (start + 1) rest) first).keys =
            k :: (bodyPhase st (List.enumFrom (start + 1) rest) false).keys := by
          simp [bodyPhase, hnl]
        have hns : nlSpec ((start, (k, JsonValue.string s)) ::
            List.enumFrom (start + 1) rest) =
            nlSpec (List.enumFrom (start + 1) rest) := by
          simp [nlSpec, hnl]
        rw [hbk, hns]
        have hfl : ((k, JsonValue.string s) :: rest).filter (fun e => !isRemoved e.2) =
            (k, JsonValue.string s) :: rest.filter (fun e => !isRemoved e.2) := by
          simp [List.filter_cons, isRemoved]
        rw [hfl, List.map_cons, List.cons_append]
        exact (ih (start + 1) false hd').cons _
    | removed =>
      have hbk : (bodyPhase st ((start, (k, JsonValue.removed)) ::
          List.enumFrom (start + 1) rest) first).keys =
          (bodyPhase st (List.enumFrom (start + 1) rest) first).keys := by
        simp [bodyPhase]
      have hns : nlSpec ((start, (k, JsonValue.removed)) ::
          List.enumFrom (start + 1) rest) =
          nlSpec (List.enumFrom (start + 1) rest) := by
        simp [nlSpec]
      rw [hbk, hns]
      have hfl : ((k, JsonValue.removed) :: rest).filter (fun e => !isRemoved e.2) =
          rest.filter (fun e => !isRemoved e.2) := by
        simp [List.filter_cons, isRemoved]
      rw [hfl]
      exact ih (start + 1) first hd'
    | number n =>
      have hbk : (bodyPhase st ((start, (k, JsonValue.number n)) ::
          List.enumFrom (start + 1) rest) first).keys =
          k :: (bodyPhase st (List.enumFrom (start + 1) rest) false).keys := by
        simp [bodyPhase]
      have hns : nlSpec ((start, (k, JsonValue.number n)) ::
          List.enumFrom (start + 1) rest) =
          nlSpec (List.enumFrom (start + 1) rest) := by
        simp [nlSpec]
      rw [hbk, hns]
      have hfl : ((k, JsonValue.number n) :: rest).filter (fun e => !isRemoved e.2) =
          (k, JsonValue.number n) :: rest.filter (fun e => !isRemoved e.2) := by
        simp [List.filter_cons, isRemoved]
      rw [hfl, List.map_cons, List.cons_append]
      exact (ih (start + 1) false hd').cons _
    | bool b =>
      have hbk : (bodyPhase st ((start, (k, JsonValue.bool b)) ::
          List.enumFrom (start + 1) rest) first).keys =
          k :: (bodyPhase st (List.enumFrom (start + 1) rest) false).keys := by
        simp [bodyPhase]
      have hns : nlSpec ((start, (k, JsonValue.bool b)) ::
          List.enumFrom (start + 1) rest) =
          nlSpec (List.enumFrom (start + 1) rest) := by
        simp [nlSpec]
      rw [hbk, hns]
      have hfl : ((k, JsonValue.bool b) :: rest).filter (fun e => !isRemoved e.2) =
          (k, JsonValue.bool b) :: rest.filter (fun e => !isRemoved e.2) := by
        simp [List.filter_cons, isRemoved]
      rw [hfl, List.map_cons, List.cons_append]
      exact (ih (start + 1) false hd').cons _
    | null =>
      have hbk : (bodyPhase st ((start, (k, JsonValue.null)) ::
          List.enumFrom (start + 1) rest) first).keys =
          k :: (bodyPhase st (List.enumFrom (start + 1) rest) false).keys := by
        simp [bodyPhase]
      have hns : nlSpec ((start, (k, JsonValue.null)) ::
          List.enumFrom (start + 1) rest) =
          nlSpec (List.enumFrom (start + 1) rest) := by
        simp [nlSpec]
      rw [hbk, hns]
      have hfl : ((k, JsonValue.null) :: rest).filter (fun e => !isRemoved e.2) =
          (k, JsonValue.null) :: rest.filter (fun e => !isRemoved e.2) := by
        simp [List.filter_cons, isRemoved]
      rw [hfl, List.map_cons, List.cons_append]
      exact (ih (start + 1) false hd').cons _
    | object fs =>
      have hbk : (bodyPhase st ((start, (k, JsonValue.object fs)) ::
          List.enumFrom (start + 1) rest) first).keys =
          k :: (bodyPhase st (List.enumFrom (start + 1) rest) false).keys := by
        simp [bodyPhase]
      have hns : nlSpec ((start, (k, JsonValue.object fs)) ::
          List.enumFrom (start + 1) rest) =
          nlSpec (List.enumFrom (start + 1) rest) := by
        simp [nlSpec]
      rw [hbk, hns]
      have hfl : ((k, JsonValue.object fs) :: rest).filter (fun e => !isRemoved e.2) =
          (k, JsonValue.object fs) :: rest.filter (fun e => !isRemoved e.2) := by
        simp [List.filter_cons, isRemoved]
      rw [hfl, List.map_cons, List.cons_append]
      exact (ih (start + 1) false hd').cons _
    | array its =>
      have hbk : (bodyPhase st ((start, (k, JsonValue.array its)) ::
          List.enumFrom (start + 1) rest) first).keys =
          k :: (bodyPhase st (List.enumFrom (start + 1) rest) false).keys := by
        simp [bodyPhase]
      have hns : nlSpec ((start, (k, JsonValue.array its)) ::
          List.enumFrom (start + 1) rest) =
          nlSpec (List.enumFrom (start + 1) rest) := by
        simp [nlSpec]
      rw [hbk, hns]
      have hfl : ((k, JsonValue.array its) :: rest).filter (fun e => !isRemoved e.2) =
          (k, JsonValue.array its) :: rest.filter (fun e => !isRemoved e.2) := by
        simp [List.filter_cons, isRemoved]
      rw [hfl, List.map_cons, List.cons_append]
      exact (ih (start + 1) false hd').cons _



theorem lookupVal_some_mem {m : JMap} {k : String} {v : JsonValue}
    (h : lookupVal m k = some v) : (k, v) ∈ m := by
  induction m with
  | nil => simp [lookupVal_nil] at h
  | cons e rest ih =>
    rw [lookupVal_cons] at h
    by_cases hbe : (e.1 == k) = true
    · rw [if_pos hbe] at h
      have hk : e.1 = k := eq_of_beq hbe
      have : e = (k, v) := by
        obtain ⟨e1, e2⟩ := e
        cases h
        simp at hk
        rw [hk]
    
      rw [← this]
      exact List.mem_cons_self _ _
    · rw [if_neg hbe] at h
      exact List.mem_cons_of_mem _ (ih h)

theorem marked_filter (m : JMap) (S : List String) (h2 : noRemoved m) :
    (m.map (fun e => if e.1 ∈ S then (e.1, JsonValue.removed) else e)).filter
      (fun e => !isRemoved e.2) = m.filter (fun e => !decide (e.1 ∈ S)) := by
  induction m with
  | nil => rfl
  | cons e rest ih =>
    have he : isRemoved e.2 = false := h2 e (List.mem_cons_self _ _)
    have ih' := ih (fun e' he' => h2 e' (List.mem_cons_of_mem _ he'))
    by_cases hmem : e.1 ∈ S
    · rw [List.map_cons, if_pos hmem, List.filter_cons, List.filter_cons]
      rw [show (!isRemoved ((e.1, JsonValue.removed) : String × JsonValue).2) = false
        from rfl]
      rw [show (!decide (e.1 ∈ S)) = false by simp [hmem]]
      simp only [Bool.false_eq_true, if_false]
      exact ih'
    · rw [List.map_cons, if_neg hmem, List.filter_cons, List.filter_cons]
      rw [show (!isRemoved e.2) = true by simp [he]]
      rw [show (!decide (e.1 ∈ S)) = true by simp [hmem]]
      simp only [if_pos]
      rw [ih']


theorem prio_keys_filter_perm (m : JMap) (S : List String) (h1 : keysNodup m)
    (hS : S.Nodup) (hmem : ∀ k ∈ S, ∃ v, lookupVal m k = some v) :
    S.Perm ((m.filter (fun e => decide (e.1 ∈ S))).map (·.1)) := by
  have hsub : List.Sublist ((m.filter (fun e => decide (e.1 ∈ S))).map (·.1))
      (m.map (·.1)) :=
    (List.filter_sublist m).map _
  have hnd2 : ((m.filter (fun e => decide (e.1 ∈ S))).map (·.1)).Nodup :=
    h1.sublist hsub
  rw [List.perm_ext_iff_of_nodup hS hnd2]
  intro k
  constructor
  · intro hk
    obtain ⟨v, hv⟩ := hmem k hk
    have hm : (k, v) ∈ m := lookupVal_some_mem hv
    have : (k, v) ∈ m.filter (fun e => decide (e.1 ∈ S)) :=
      List.mem_filter.mpr ⟨hm, by simp [hk]⟩
    exact List.mem_map.mpr ⟨(k, v), this, rfl⟩
  · intro hk
    obtain ⟨e, hef, hek⟩ := List.mem_map.mp hk
    have := (List.mem_filter.mp hef).2
    simp at this
    rwa [← hek]


/-- C1: for a map with distinct keys and no pre-existing tombstones (both are
invariants of every parsed map — see `parseLine_wf`), the keys rendered by
`json_to_logfmt` across its three phases are a permutation of the map's keys:
every field appears exactly once in the output record, none duplicated, none
dropped, for every configuration of priority fields, timestamp field and
level field. -/
theorem c1_fields_exactly_once (m : JMap) (cfg : Cfg) (st : Styler)
    (h1 : keysNodup m) (h2 : noRemoved m) :
    (renderedKeys m cfg st).Perm (m.map (·.1)) := by
  obtain ⟨hm, hk, hnd⟩ := priorityPhase_spec cfg st cfg.noKeyFields m true
  set p := priorityPhase cfg st cfg.noKeyFields m true with hp
  -- the body and newline phases together render exactly the non-removed slots
  have hbn := body_newline_keys st p.map p.map 0 p.first (fun j => by simp)
  have henum : List.enumFrom 0 p.map = p.map.enum := rfl
  rw [henum] at hbn
  -- identify the newline-phase keys
  have hnlk : (newlinePhase st p.map (bodyPhase st p.map.enum p.first).nl).2 =
      (nlSpec p.map.enum).map (fun i => (p.map.getD i ("", .removed)).1) := by
    rw [newlinePhase_keys, bodyPhase_nl_eq_spec]
  -- the non-removed slots of p.map are the fields not consumed by the priority loop
  have hfilter : p.map.filter (fun e => !isRemoved e.2) =
      m.filter (fun e => !decide (e.1 ∈ p.keys)) := by
    rw [hm]
    exact marked_filter m p.keys h2
  rw [hfilter] at hbn
  -- the priority keys are the fields consumed
  have hperm1 : p.keys.Perm ((m.filter (fun e => decide (e.1 ∈ p.keys))).map (·.1)) :=
    prio_keys_filter_perm m p.keys h1 hnd
      (fun k hk' => (hk k hk').elim (fun v hv => ⟨v, hv.1⟩))
  -- assemble
  rw [renderedKeys]
  rw [← hp]
  rw [hnlk]
  have hassoc : p.keys ++ (bodyPhase st p.map.enum p.first).keys ++
      (nlSpec p.map.enum).map (fun i => (p.map.getD i ("", .removed)).1) =
      p.keys ++ ((bodyPhase st p.map.enum p.first).keys ++
        (nlSpec p.map.enum).map (fun i => (p.map.getD i ("", .removed)).1)) := by
    rw [List.append_assoc]
  rw [hassoc]
  have step1 := (hperm1.append hbn)
  refine step1.trans ?_
  have hsplit := List.filter_append_perm (fun e => decide (e.1 ∈ p.keys)) m
  have := hsplit.map (·.1)
  rwa [List.map_append] at this


/-- Witness for C1 at a concrete three-field map (one deferred newline
field) under the default configuration. -/
theorem c1_witness :
    (renderedKeys [("a", .string "x"), ("b", .number 1), ("c", .string "p\nq")]
      defaultCfg ⟨false⟩).Perm ["a", "b", "c"] := by
  have h := c1_fields_exactly_once
    [("a", .string "x"), ("b", .number 1), ("c", .string "p\nq")] defaultCfg ⟨false⟩
    (by unfold keysNodup; decide) (by unfold noRemoved; decide)
  simpa using h

/-- A parsed value is never the `Removed` tombstone. -/
theorem parseValueF_not_removed : ∀ (fuel : Nat) (cs : List Char) (v : JsonValue)
    (r : List Char), parseValueF fuel cs = some (v, r) → isRemoved v = false := by
  intro fuel
  cases fuel with
  | zero => intro cs v r h; simp [parseValueF] at h
  | succ f =>
    intro cs v r h
    rw [parseValueF] at h
    repeat' split at h
    all_goals
      try simp only [Option.some.injEq, Prod.mk.injEq] at h
    all_goals
      first
      | simp at h
      | (obtain ⟨h1, h2⟩ := h
         subst h1
         rfl)


theorem replaceKey_keys (m : JMap) (k : String) (v : JsonValue) :
    (m.map (fun e => if e.1 == k then (k, v) else e)).map (·.1) = m.map (·.1) := by
  induction m with
  | nil => rfl
  | cons e rest ih =>
    have hfe : ((if (e.1 == k) = true then (k, v) else e) : String × JsonValue).1 = e.1 := by
      by_cases he : (e.1 == k) = true
      · rw [if_pos he]
        exact (eq_of_beq he).symm
      · rw [if_neg he]
    simp only [List.map_cons, hfe, ih]

theorem mapInsert_keysNodup (m : JMap) (k : String) (v : JsonValue)
    (h : keysNodup m) : keysNodup (mapInsert m k v) := by
  rw [mapInsert]
  by_cases hc : m.any (fun e => e.1 == k)
  · rw [if_pos hc]
    unfold keysNodup
    rw [replaceKey_keys]
    exact h
  · rw [if_neg hc]
    unfold keysNodup
    rw [List.map_append]
    have hknot : k ∉ m.map (·.1) := by
      intro hk
      obtain ⟨e, hem, hek⟩ := List.mem_map.mp hk
      exact hc (List.any_eq_true.mpr ⟨e, hem, by simp [hek]⟩)
    refine List.nodup_append.mpr ⟨h, List.nodup_singleton _, ?_⟩
    intro a ha hb
    rw [List.mem_singleton.mp hb] at ha
    exact hknot ha

theorem mapInsert_noRemoved (m : JMap) (k : String) (v : JsonValue)
    (h : noRemoved m) (hv : isRemoved v = false) : noRemoved (mapInsert m k v) := by
  rw [mapInsert]
  by_cases hc : m.any (fun e => e.1 == k)
  · rw [if_pos hc]
    intro e he
    obtain ⟨e0, he0, heq⟩ := List.mem_map.mp he
    by_cases h0 : (e0.1 == k) = true
    · rw [if_pos h0] at heq
      rw [← heq]
      exact hv
    · rw [if_neg h0] at heq
      rw [← heq]
      exact h e0 he0
  · rw [if_neg hc]
    intro e he
    rcases List.mem_append.mp he with h1 | h1
    · exact h e h1
    · rw [List.mem_singleton.mp h1]
      exact hv

theorem parseTopObjectF_wf : ∀ (fuel : Nat) (ac : Bool) (acc : JMap) (cs : List Char)
    (m : JMap) (r : List Char),
    parseTopObjectF fuel ac acc cs = some (m, r) →
    keysNodup acc → noRemoved acc → keysNodup m ∧ noRemoved m := by
  intro fuel
  induction fuel with
  | zero => intro ac acc cs m r h; simp [parseTopObjectF] at h
  | succ f ih =>
    intro ac acc cs m r h hk hr
    rw [parseTopObjectF] at h
    repeat' split at h
    all_goals try simp only [Option.some.injEq, Prod.mk.injEq] at h
    all_goals
      first
      | exact Option.noConfusion h
      | (obtain ⟨h1, h2⟩ := h
         subst h1
         exact ⟨hk, hr⟩)
      | (have hnr := parseValueF_not_removed _ _ _ _ (by assumption)
         exact ih _ _ _ _ _ h (mapInsert_keysNodup _ _ _ hk)
           (mapInsert_noRemoved _ _ _ hr hnr))
      | (have hnr := parseValueF_not_removed _ _ _ _ (by assumption)
         obtain ⟨h1, h2⟩ := h
         subst h1
         exact ⟨mapInsert_keysNodup _ _ _ hk, mapInsert_noRemoved _ _ _ hr hnr⟩)

/-- Every map produced by the line parser has pairwise-distinct keys and no
tombstones — the hypotheses of `c1_fields_exactly_once`. -/
theorem parseLine_wf (line : String) (m : JMap) (h : parseLine line = some m) :
    keysNodup m ∧ noRemoved m := by
  rw [parseLine] at h
  split at h
  · split at h
    · rename_i hp
      obtain rfl : _ = m := by
        simpa using h
      exact parseTopObjectF_wf _ _ _ _ _ _ hp (by simp [keysNodup])
        (by intro e he; simp at he)
    · simp at h
  · simp at h



/-! ## Escape-freedom of the renderer (C8) -/

theorem str_data_append (a b : String) : (a ++ b).data = a.data ++ b.data := rfl

theorem hasChar_append (a b : String) (c : Char) :
    hasChar (a ++ b) c = (hasChar a c || hasChar b c) := by
  simp [hasChar, str_data_append]

theorem chunksEscFree_append (a b : List Chunk) :
    chunksEscFree (a ++ b) = (chunksEscFree a && chunksEscFree b) := by
  simp [chunksEscFree, List.all_append]

theorem traceText_escFree : ∀ l : List Chunk, chunksEscFree l = true →
    hasChar (traceText l) '\x1b' = false := by
  intro l
  induction l with
  | nil => intro _; rfl
  | cons c rest ih =>
    intro h
    rw [chunksEscFree] at h
    simp only [List.all_cons, Bool.and_eq_true] at h
    rw [traceText_cons, hasChar_append]
    have h1 : hasChar c.text '\x1b' = false := by
      have := h.1
      simpa using this
    rw [h1, ih (by simp [chunksEscFree, h.2])]
    rfl

theorem digit10_ne_esc (n : Nat) : ('\x1b' == digit10 n) = false := by
  unfold digit10
  split <;> rfl

theorem natDecimalAux_esc : ∀ (fuel n : Nat) (acc : List Char),
    acc.contains '\x1b' = false → (natDecimalAux fuel n acc).contains '\x1b' = false := by
  intro fuel
  induction fuel with
  | zero => intro n acc h; exact h
  | succ f ih =>
    intro n acc h
    rw [natDecimalAux]
    have hacc : (digit10 (n % 10) :: acc).contains '\x1b' = false := by
      simp only [List.contains_cons, Bool.or_eq_false_iff]
      exact ⟨digit10_ne_esc _, h⟩
    by_cases hlt : n < 10
    · simp only [hlt, if_pos]
      exact hacc
    · simp only [hlt, if_neg, Bool.false_eq_true]
      exact ih _ _ hacc

theorem natDecimal_esc (n : Nat) : hasChar (natDecimal n) '\x1b' = false := by
  rw [natDecimal, hasChar]
  exact natDecimalAux_esc _ _ _ rfl

theorem intDecimal_esc (n : Int) : hasChar (intDecimal n) '\x1b' = false := by
  rw [intDecimal]
  by_cases h : n < 0
  · rw [if_pos h, hasChar_append, natDecimal_esc]
    rfl
  · rw [if_neg h]
    exact natDecimal_esc _

theorem pad2_esc (n : Nat) : hasChar (pad2 n) '\x1b' = false := by
  rw [pad2]
  by_cases h : n < 10
  · rw [if_pos h, hasChar_append, natDecimal_esc]
    rfl
  · rw [if_neg h]
    exact natDecimal_esc _

theorem pad3_esc (n : Nat) : hasChar (pad3 n) '\x1b' = false := by
  rw [pad3]
  by_cases h1 : n < 10
  · rw [if_pos h1, hasChar_append, natDecimal_esc]
    rfl
  · rw [if_neg h1]
    by_cases h2 : n < 100
    · rw [if_pos h2, hasChar_append, natDecimal_esc]
      rfl
    · rw [if_neg h2]
      exact natDecimal_esc _

theorem pad4Nat_esc (n : Nat) : hasChar (pad4Year.pad4Nat n) '\x1b' = false := by
  rw [pad4Year.pad4Nat]
  by_cases h1 : n < 10
  · rw [if_pos h1, hasChar_append, natDecimal_esc]
    rfl
  · rw [if_neg h1]
    by_cases h2 : n < 100
    · rw [if_pos h2, hasChar_append, natDecimal_esc]
      rfl
    · rw [if_neg h2]
      by_cases h3 : n < 1000
      · rw [if_pos h3, hasChar_append, natDecimal_esc]
        rfl
      · rw [if_neg h3]
        exact natDecimal_esc _

theorem pad4Year_esc (y : Int) : hasChar (pad4Year y) '\x1b' = false := by
  rw [pad4Year]
  by_cases h1 : y < 0
  · rw [if_pos h1, hasChar_append, pad4Nat_esc]
    rfl
  · rw [if_neg h1]
    by_cases h2 : 9999 < y
    · rw [if_pos h2, hasChar_append, natDecimal_esc]
      rfl
    · rw [if_neg h2]
      exact pad4Nat_esc _

theorem formatSecs_esc (dt : CivilDT) : hasChar (formatSecs dt) '\x1b' = false := by
  rw [formatSecs]
  simp only [hasChar_append, pad4Year_esc, pad2_esc, Bool.or_false, Bool.false_or]
  rfl

theorem formatMillis_esc (dt : CivilDT) : hasChar (formatMillis dt) '\x1b' = false := by
  rw [formatMillis]
  simp only [hasChar_append, pad4Year_esc, pad2_esc, pad3_esc, Bool.or_false, Bool.false_or]
  rfl

theorem styler_plain (st : Styler) (h : st.colorize = false) :
    (∀ val depth, st.depth val depth = val) ∧
    (∀ s, st.level s = s) ∧
    (∀ s, st.timestamp s = s) ∧
    (∀ v e depth, st.depthMulti v e depth = v ++ e) := by
  refine ⟨?_, ?_, ?_, ?_⟩
  · intro val depth
    rw [Styler.depth, Styler.depthStyle, h]
    rfl
  · intro s
    rw [Styler.level, Styler.levelStyle, h]
    rfl
  · intro s
    rw [Styler.timestamp, Styler.timestampStyle, h]
    rfl
  · intro v e depth
    rw [Styler.depthMulti, Styler.depthStyle, h]
    rfl

theorem tfd_esc (fmt : TimestampFormat) (ts : Int) (st : Styler)
    (h : st.colorize = false) :
    chunksEscFree (tryFormatDatetimeChunks fmt ts st) = true := by
  obtain ⟨_, _, hts, _⟩ := styler_plain st h
  have key : ∀ p : TimestampFormat × Option CivilDT,
      chunksEscFree
        (match p with
         | (.seconds, some dt) => [⟨st.timestamp (formatSecs dt), .wunwrap⟩]
         | (.millis, some dt) => [⟨st.timestamp (formatMillis dt), .wunwrap⟩]
         | (.raw, _) => ([] : List Chunk)
         | (_, _) => [⟨st.timestamp (intDecimal ts), .wtry⟩]) = true := by
    rintro ⟨f, o⟩
    cases f <;> cases o
    all_goals
      simp only [chunksEscFree, List.all_cons, List.all_nil, hts,
        Bool.and_true, formatSecs_esc, formatMillis_esc, intDecimal_esc,
        Bool.not_false]
  exact key _

theorem escapeStr_esc (s : String) (h : hasChar s '\x1b' = false) :
    hasChar (escapeStr s) '\x1b' = false := by
  rw [hasChar] at h
  revert h
  show (s.data.contains _ = false) →
    (s.data.foldr _ []).contains '\x1b' = false
  induction s.data with
  | nil => intro _; rfl
  | cons c rest ih =>
    intro h
    simp only [List.contains_cons, Bool.or_eq_false_iff] at h
    have ih' := ih h.2
    simp only [List.foldr_cons]
    by_cases h1 : c = '\\'
    · simp only [h1, if_pos, List.contains_cons, Bool.or_eq_false_iff]
      exact ⟨rfl, rfl, ih'⟩
    · rw [if_neg h1]
      by_cases h2 : c = '"'
      · simp only [h2, if_pos, List.contains_cons, Bool.or_eq_false_iff]
        exact ⟨rfl, rfl, ih'⟩
      · rw [if_neg h2]
        simp only [List.contains_cons, Bool.or_eq_false_iff]
        exact ⟨h.1, ih'⟩




theorem chunksEscFree_singleton (t : String) (m : WMode) :
    chunksEscFree [⟨t, m⟩] = !hasChar t '\x1b' := by
  simp [chunksEscFree]

theorem hasChar_ite (c : Prop) (inst : Decidable c) (a b : String) (ch : Char)
    (ha : hasChar a ch = false) (hb : hasChar b ch = false) :
    hasChar (if c then a else b) ch = false := by
  split <;> assumption

mutual
theorem dispEscV : ∀ (v : JsonValue) (pfx : String) (depth : Nat) (st : Styler),
    st.colorize = false → hasChar pfx '\x1b' = false → escFreeV v = true →
    chunksEscFree (displayValueRecursive v pfx depth st) = true
  | .string s, pfx, depth, st, hc, hp, hv => by
    obtain ⟨hd, _, _, _⟩ := styler_plain st hc
    simp only [escFreeV, Bool.not_eq_true'] at hv
    simp only [displayValueRecursive]
    split
    · rw [chunksEscFree_singleton, Bool.not_eq_true']
      simp only [hasChar_append, Bool.or_eq_false_iff]
      refine ⟨⟨⟨⟨?_, ?_⟩, rfl⟩, escapeStr_esc s hv⟩, rfl⟩
      · exact hasChar_ite _ _ _ _ _ rfl (by rw [hd]; exact hp)
      · exact hasChar_ite _ _ _ _ _ rfl rfl
    · rw [chunksEscFree_singleton, Bool.not_eq_true']
      simp only [hasChar_append, Bool.or_eq_false_iff]
      refine ⟨⟨?_, ?_⟩, hv⟩
      · exact hasChar_ite _ _ _ _ _ rfl (by rw [hd]; exact hp)
      · exact hasChar_ite _ _ _ _ _ rfl rfl
  | .number n, pfx, depth, st, hc, hp, _ => by
    obtain ⟨hd, _, _, _⟩ := styler_plain st hc
    simp only [displayValueRecursive]
    rw [chunksEscFree_singleton, Bool.not_eq_true']
    simp only [hasChar_append, Bool.or_eq_false_iff]
    refine ⟨⟨?_, ?_⟩, intDecimal_esc n⟩
    · exact hasChar_ite _ _ _ _ _ rfl (by rw [hd]; exact hp)
    · exact hasChar_ite _ _ _ _ _ rfl rfl
  | .bool b, pfx, depth, st, hc, hp, _ => by
    obtain ⟨hd, _, _, _⟩ := styler_plain st hc
    simp only [displayValueRecursive]
    rw [chunksEscFree_singleton, Bool.not_eq_true']
    simp only [hasChar_append, Bool.or_eq_false_iff]
    refine ⟨⟨?_, ?_⟩, ?_⟩
    · exact hasChar_ite _ _ _ _ _ rfl (by rw [hd]; exact hp)
    · exact hasChar_ite _ _ _ _ _ rfl rfl
    · exact hasChar_ite _ _ _ _ _ rfl rfl
  | .null, pfx, depth, st, hc, hp, _ => by
    obtain ⟨hd, _, _, _⟩ := styler_plain st hc
    simp only [displayValueRecursive]
    rw [chunksEscFree_singleton, Bool.not_eq_true']
    simp only [hasChar_append, Bool.or_eq_false_iff]
    refine ⟨⟨?_, ?_⟩, rfl⟩
    · exact hasChar_ite _ _ _ _ _ rfl (by rw [hd]; exact hp)
    · exact hasChar_ite _ _ _ _ _ rfl rfl
  | .removed, _, _, _, _, _, _ => rfl
  | .object fields, pfx, depth, st, hc, hp, hv => by
    obtain ⟨hd, _, _, hdm⟩ := styler_plain st hc
    simp only [escFreeV] at hv
    simp only [displayValueRecursive]
    rw [chunksEscFree_append, chunksEscFree_append, Bool.and_eq_true,
      Bool.and_eq_true]
    refine ⟨⟨?_, dispEscF fields true (depth + 1) st hc hv⟩, ?_⟩
    · rw [chunksEscFree_singleton, Bool.not_eq_true', hdm, hasChar_append]
      simp only [Bool.or_eq_false_iff]
      exact ⟨hp, rfl⟩
    · rw [chunksEscFree_singleton, Bool.not_eq_true', hd]
      rfl
  | .array items, pfx, depth, st, hc, hp, hv => by
    obtain ⟨hd, _, _, hdm⟩ := styler_plain st hc
    simp only [escFreeV] at hv
    simp only [displayValueRecursive]
    rw [chunksEscFree_append, chunksEscFree_append, Bool.and_eq_true,
      Bool.and_eq_true]
    refine ⟨⟨?_, dispEscI items true (depth + 1) st hc hv⟩, ?_⟩
    · rw [chunksEscFree_singleton, Bool.not_eq_true', hdm, hasChar_append]
      simp only [Bool.or_eq_false_iff]
      exact ⟨hp, rfl⟩
    · rw [chunksEscFree_singleton, Bool.not_eq_true', hd]
      rfl
termination_by structural v => v

theorem dispEscF : ∀ (l : JFields) (first : Bool) (depth : Nat) (st : Styler),
    st.colorize = false → escFreeF l = true →
    chunksEscFree (displayFieldsChunks l first depth st) = true
  | .nil, _, _, _, _, _ => rfl
  | .cons k v rest, first, depth, st, hc, hf => by
    simp only [escFreeF, Bool.and_eq_true, Bool.not_eq_true'] at hf
    obtain ⟨⟨hk, hv⟩, hrest⟩ := hf
    simp only [displayFieldsChunks]
    rw [chunksEscFree_append, chunksEscFree_append, Bool.and_eq_true,
      Bool.and_eq_true]
    refine ⟨⟨?_, dispEscV v k depth st hc hk hv⟩,
      dispEscF rest false depth st hc hrest⟩
    split <;> rfl
termination_by structural l => l

theorem dispEscI : ∀ (l : JItems) (first : Bool) (depth : Nat) (st : Styler),
    st.colorize = false → escFreeI l = true →
    chunksEscFree (displayItemsChunks l first depth st) = true
  | .nil, _, _, _, _, _ => rfl
  | .cons v rest, first, depth, st, hc, hi => by
    simp only [escFreeI, Bool.and_eq_true] at hi
    obtain ⟨hv, hrest⟩ := hi
    simp only [displayItemsChunks]
    rw [chunksEscFree_append, chunksEscFree_append, Bool.and_eq_true,
      Bool.and_eq_true]
    refine ⟨⟨?_, dispEscV v "" depth st hc rfl hv⟩,
      dispEscI rest false depth st hc hrest⟩
    split <;> rfl
termination_by structural l => l
end


theorem chunksEscFree_cons (c : Chunk) (l : List Chunk) :
    chunksEscFree (c :: l) = (!hasChar c.text '\x1b' && chunksEscFree l) := by
  simp [chunksEscFree]

theorem chunksEscFree_sp (c : Bool) (w : WMode) :
    chunksEscFree (if c = true then [⟨" ", w⟩] else []) = true := by
  cases c <;> rfl

theorem escFreeMap_setRemoved : ∀ (m : JMap) (k : String), escFreeMap m = true →
    escFreeMap (setRemoved m k) = true
  | [], _, _ => rfl
  | e :: rest, k, h => by
    simp only [escFreeMap, List.all_cons, Bool.and_eq_true] at h
    obtain ⟨he, hrest⟩ := h
    simp only [setRemoved, List.map_cons]
    simp only [escFreeMap, List.all_cons, Bool.and_eq_true]
    constructor
    · split
      · simp only [Bool.and_eq_true] at he ⊢
        exact ⟨he.1, rfl⟩
      · exact he
    · exact escFreeMap_setRemoved rest k hrest

theorem lookupVal_escFree {m : JMap} {k : String} {v : JsonValue}
    (hm : escFreeMap m = true) (h : lookupVal m k = some v) :
    escFreeV v = true := by
  have hmem := lookupVal_some_mem h
  simp only [escFreeMap, List.all_eq_true] at hm
  have h2 := hm (k, v) hmem
  simp only [Bool.and_eq_true] at h2
  exact h2.2

theorem prioEsc (cfg : Cfg) (st : Styler) (hc : st.colorize = false) :
    ∀ (ks : List String) (m : JMap) (first : Bool), escFreeMap m = true →
    chunksEscFree (priorityPhase cfg st ks m first).chunks = true ∧
    escFreeMap (priorityPhase cfg st ks m first).map = true := by
  intro ks
  induction ks with
  | nil => intro m first hm; exact ⟨rfl, hm⟩
  | cons k ks ih =>
    intro m first hm
    obtain ⟨_, hl', _, _⟩ := styler_plain st hc
    cases hl : lookupVal m k with
    | none =>
      have heq : priorityPhase cfg st (k :: ks) m first =
          priorityPhase cfg st ks m first := by
        rw [priorityPhase, hl]
      rw [heq]
      exact ih m first hm
    | some v =>
      have hvfree := lookupVal_escFree hm hl
      cases v with
      | string s =>
        simp only [escFreeV, Bool.not_eq_true'] at hvfree
        have hchunks : (priorityPhase cfg st (k :: ks) m first).chunks =
            (if (!first) = true then [(⟨" ", .wtry⟩ : Chunk)] else []) ++
              [⟨(if (k == cfg.levelField) = true then st.level s else s), .wtry⟩] ++
              (priorityPhase cfg st ks (setRemoved m k) false).chunks := by
          simp [priorityPhase, hl]
        have hmap : (priorityPhase cfg st (k :: ks) m first).map =
            (priorityPhase cfg st ks (setRemoved m k) false).map := by
          simp [priorityPhase, hl]
        obtain ⟨ihc, ihm⟩ := ih (setRemoved m k) false (escFreeMap_setRemoved m k hm)
        refine ⟨?_, by rw [hmap]; exact ihm⟩
        rw [hchunks, chunksEscFree_append, chunksEscFree_append,
          Bool.and_eq_true, Bool.and_eq_true]
        refine ⟨⟨chunksEscFree_sp _ _, ?_⟩, ihc⟩
        rw [chunksEscFree_singleton, Bool.not_eq_true']
        exact hasChar_ite _ _ _ _ _ (by rw [hl']; exact hvfree) hvfree
      | number n =>
        have hchunks : (priorityPhase cfg st (k :: ks) m first).chunks =
            (if (!first) = true then [(⟨" ", .wtry⟩ : Chunk)] else []) ++
              (if (k == cfg.timestampField) = true then
                (if cfg.timestampFormat ≠ .raw then
                  tryFormatDatetimeChunks cfg.timestampFormat (asI64 n) st
                 else [⟨intDecimal (asI64 n), .wtry⟩])
               else [⟨intDecimal n, .wtry⟩]) ++
              (priorityPhase cfg st ks (setRemoved m k) false).chunks := by
          simp [priorityPhase, hl]
        have hmap : (priorityPhase cfg st (k :: ks) m first).map =
            (priorityPhase cfg st ks (setRemoved m k) false).map := by
          simp [priorityPhase, hl]
        obtain ⟨ihc, ihm⟩ := ih (setRemoved m k) false (escFreeMap_setRemoved m k hm)
        refine ⟨?_, by rw [hmap]; exact ihm⟩
        rw [hchunks, chunksEscFree_append, chunksEscFree_append,
          Bool.and_eq_true, Bool.and_eq_true]
        refine ⟨⟨chunksEscFree_sp _ _, ?_⟩, ihc⟩
        split
        · split
          · exact tfd_esc _ _ st hc
          · rw [chunksEscFree_singleton, Bool.not_eq_true']
            exact intDecimal_esc _
        · rw [chunksEscFree_singleton, Bool.not_eq_true']
          exact intDecimal_esc _
      | bool b =>
        have hchunks : (priorityPhase cfg st (k :: ks) m first).chunks =
            (if (!first) = true then [(⟨" ", .wtry⟩ : Chunk)] else []) ++
              (priorityPhase cfg st ks m false).chunks := by
          simp [priorityPhase, hl]
        have hmap : (priorityPhase cfg st (k :: ks) m first).map =
            (priorityPhase cfg st ks m false).map := by
          simp [priorityPhase, hl]
        obtain ⟨ihc, ihm⟩ := ih m false hm
        refine ⟨?_, by rw [hmap]; exact ihm⟩
        rw [hchunks, chunksEscFree_append, Bool.and_eq_true]
        exact ⟨chunksEscFree_sp _ _, ihc⟩
      | null =>
        have hchunks : (priorityPhase cfg st (k :: ks) m first).chunks =
            (if (!first) = true then [(⟨" ", .wtry⟩ : Chunk)] else []) ++
              (priorityPhase cfg st ks m false).chunks := by
          simp [priorityPhase, hl]
        have hmap : (priorityPhase cfg st (k :: ks) m first).map =
            (priorityPhase cfg st ks m false).map := by
          simp [priorityPhase, hl]
        obtain ⟨ihc, ihm⟩ := ih m false hm
        refine ⟨?_, by rw [hmap]; exact ihm⟩
        rw [hchunks, chunksEscFree_append, Bool.and_eq_true]
        exact ⟨chunksEscFree_sp _ _, ihc⟩
      | removed =>
        have hchunks : (priorityPhase cfg st (k :: ks) m first).chunks =
            (if (!first) = true then [(⟨" ", .wtry⟩ : Chunk)] else []) ++
              (priorityPhase cfg st ks m false).chunks := by
          simp [priorityPhase, hl]
        have hmap : (priorityPhase cfg st (k :: ks) m first).map =
            (priorityPhase cfg st ks m false).map := by
          simp [priorityPhase, hl]
        obtain ⟨ihc, ihm⟩ := ih m false hm
        refine ⟨?_, by rw [hmap]; exact ihm⟩
        rw [hchunks, chunksEscFree_append, Bool.and_eq_true]
        exact ⟨chunksEscFree_sp _ _, ihc⟩
      | object fs =>
        have hchunks : (priorityPhase cfg st (k :: ks) m first).chunks =
            (if (!first) = true then [(⟨" ", .wtry⟩ : Chunk)] else []) ++
              (priorityPhase cfg st ks m false).chunks := by
          simp [priorityPhase, hl]
        have hmap : (priorityPhase cfg st (k :: ks) m first).map =
            (priorityPhase cfg st ks m false).map := by
          simp [priorityPhase, hl]
        obtain ⟨ihc, ihm⟩ := ih m false hm
        refine ⟨?_, by rw [hmap]; exact ihm⟩
        rw [hchunks, chunksEscFree_append, Bool.and_eq_true]
        exact ⟨chunksEscFree_sp _ _, ihc⟩
      | array its =>
        have hchunks : (priorityPhase cfg st (k :: ks) m first).chunks =
            (if (!first) = true then [(⟨" ", .wtry⟩ : Chunk)] else []) ++
              (priorityPhase cfg st ks m false).chunks := by
          simp [priorityPhase, hl]
        have hmap : (priorityPhase cfg st (k :: ks) m first).map =
            (priorityPhase cfg st ks m false).map := by
          simp [priorityPhase, hl]
        obtain ⟨ihc, ihm⟩ := ih m false hm
        refine ⟨?_, by rw [hmap]; exact ihm⟩
        rw [hchunks, chunksEscFree_append, Bool.and_eq_true]
        exact ⟨chunksEscFree_sp _ _, ihc⟩

theorem bodyEsc (st : Styler) (hc : st.colorize = false) :
    ∀ (l : List (Nat × String × JsonValue)) (first : Bool),
    (∀ e ∈ l, hasChar e.2.1 '\x1b' = false ∧ escFreeV e.2.2 = true) →
    chunksEscFree (bodyPhase st l first).chunks = true := by
  intro l
  induction l with
  | nil => intro first _; rfl
  | cons e rest ih =>
    obtain ⟨i, k, v⟩ := e
    intro first hfree
    obtain ⟨hk, hv⟩ := hfree (i, k, v) (List.mem_cons_self _ _)
    have hrest := fun e he => hfree e (List.mem_cons_of_mem _ he)
    cases v with
    | removed =>
      have hchunks : (bodyPhase st ((i, k, .removed) :: rest) first).chunks =
          (bodyPhase st rest first).chunks := by
        simp [bodyPhase]
      rw [hchunks]
      exact ih first hrest
    | string s =>
      by_cases hnl : hasChar s '\n' = true
      · have hchunks : (bodyPhase st ((i, k, .string s) :: rest) first).chunks =
            (bodyPhase st rest first).chunks := by
          simp [bodyPhase, hnl]
        rw [hchunks]
        exact ih first hrest
      · have hchunks : (bodyPhase st ((i, k, .string s) :: rest) first).chunks =
            (if (!first) = true then [(⟨" ", .wunwrap⟩ : Chunk)] else []) ++
              displayValueRecursive (.string s) k 0 st ++
              (bodyPhase st rest false).chunks := by
          simp [bodyPhase, hnl]
        rw [hchunks, chunksEscFree_append, chunksEscFree_append,
          Bool.and_eq_true, Bool.and_eq_true]
        exact ⟨⟨chunksEscFree_sp _ _, dispEscV _ k 0 st hc hk hv⟩, ih false hrest⟩
    | number n =>
      have hchunks : (bodyPhase st ((i, k, .number n) :: rest) first).chunks =
          (if (!first) = true then [(⟨" ", .wunwrap⟩ : Chunk)] else []) ++
            displayValueRecursive (.number n) k 0 st ++
            (bodyPhase st rest false).chunks := by
        simp [bodyPhase]
      rw [hchunks, chunksEscFree_append, chunksEscFree_append,
        Bool.and_eq_true, Bool.and_eq_true]
      exact ⟨⟨chunksEscFree_sp _ _, dispEscV _ k 0 st hc hk hv⟩, ih false hrest⟩
    | bool b =>
      have hchunks : (bodyPhase st ((i, k, .bool b) :: rest) first).chunks =
          (if (!first) = true then [(⟨" ", .wunwrap⟩ : Chunk)] else []) ++
            displayValueRecursive (.bool b) k 0 st ++
            (bodyPhase st rest false).chunks := by
        simp [bodyPhase]
      rw [hchunks, chunksEscFree_append, chunksEscFree_append,
        Bool.and_eq_true, Bool.and_eq_true]
      exact ⟨⟨chunksEscFree_sp _ _, dispEscV _ k 0 st hc hk hv⟩, ih false hrest⟩
    | null =>
      have hchunks : (bodyPhase st ((i, k, .null) :: rest) first).chunks =
          (if (!first) = true then [(⟨" ", .wunwrap⟩ : Chunk)] else []) ++
            displayValueRecursive .null k 0 st ++
            (bodyPhase st rest false).chunks := by
        simp [bodyPhase]
      rw [hchunks, chunksEscFree_append, chunksEscFree_append,
        Bool.and_eq_true, Bool.and_eq_true]
      exact ⟨⟨chunksEscFree_sp _ _, dispEscV _ k 0 st hc hk hv⟩, ih false hrest⟩
    | object fs =>
      have hchunks : (bodyPhase st ((i, k, .object fs) :: rest) first).chunks =
          (if (!first) = true then [(⟨" ", .wunwrap⟩ : Chunk)] else []) ++
            displayValueRecursive (.object fs) k 0 st ++
            (bodyPhase st rest false).chunks := by
        simp [bodyPhase]
      rw [hchunks, chunksEscFree_append, chunksEscFree_append,
        Bool.and_eq_true, Bool.and_eq_true]
      exact ⟨⟨chunksEscFree_sp _ _, dispEscV _ k 0 st hc hk hv⟩, ih false hrest⟩
    | array its =>
      have hchunks : (bodyPhase st ((i, k, .array its) :: rest) first).chunks =
          (if (!first) = true then [(⟨" ", .wunwrap⟩ : Chunk)] else []) ++
            displayValueRecursive (.array its) k 0 st ++
            (bodyPhase st rest false).chunks := by
        simp [bodyPhase]
      rw [hchunks, chunksEscFree_append, chunksEscFree_append,
        Bool.and_eq_true, Bool.and_eq_true]
      exact ⟨⟨chunksEscFree_sp _ _, dispEscV _ k 0 st hc hk hv⟩, ih false hrest⟩

theorem getD_escFree (m : JMap) (hm : escFreeMap m = true) (i : Nat) :
    hasChar (m.getD i ("", .removed)).1 '\x1b' = false ∧
    escFreeV (m.getD i ("", .removed)).2 = true := by
  by_cases hi : i < m.length
  · rw [List.getD_eq_getElem m _ hi]
    have hmem := List.getElem_mem (l := m) (n := i) hi
    simp only [escFreeMap, List.all_eq_true] at hm
    have h2 := hm _ hmem
    simp only [Bool.and_eq_true, Bool.not_eq_true'] at h2
    exact h2
  · rw [List.getD_eq_default m _ (Nat.le_of_not_lt hi)]
    exact ⟨rfl, rfl⟩

theorem nlEsc (st : Styler) (m : JMap) (hc : st.colorize = false)
    (hm : escFreeMap m = true) :
    ∀ idxs : List Nat, chunksEscFree (newlinePhase st m idxs).1 = true := by
  intro idxs
  induction idxs with
  | nil => rfl
  | cons i rest ih =>
    obtain ⟨hk, hv⟩ := getD_escFree m hm i
    have hchunks : (newlinePhase st m (i :: rest)).1 =
        (⟨"\n", .wunwrap⟩ : Chunk) ::
          (displayValueRecursive (m.getD i ("", .removed)).2
            (m.getD i ("", .removed)).1 0 st ++ (newlinePhase st m rest).1) := by
      simp [newlinePhase]
    rw [hchunks, chunksEscFree_cons, chunksEscFree_append]
    simp only [Bool.and_eq_true]
    exact ⟨rfl, dispEscV _ _ 0 st hc hk hv, ih⟩

theorem record_escFree (m : JMap) (cfg : Cfg) (st : Styler)
    (hc : st.colorize = false) (hm : escFreeMap m = true) :
    hasChar (recordText m cfg st) '\x1b' = false := by
  rw [recordText]
  apply traceText_escFree
  obtain ⟨hpc, hpm⟩ := prioEsc cfg st hc cfg.noKeyFields m true hm
  have hchunks : jsonToLogfmtChunks m cfg st =
      (priorityPhase cfg st cfg.noKeyFields m true).chunks ++
        (bodyPhase st (priorityPhase cfg st cfg.noKeyFields m true).map.enum
          (priorityPhase cfg st cfg.noKeyFields m true).first).chunks ++
        (newlinePhase st (priorityPhase cfg st cfg.noKeyFields m true).map
          (bodyPhase st (priorityPhase cfg st cfg.noKeyFields m true).map.enum
            (priorityPhase cfg st cfg.noKeyFields m true).first).nl).1 := rfl
  rw [hchunks, chunksEscFree_append, chunksEscFree_append,
    Bool.and_eq_true, Bool.and_eq_true]
  refine ⟨⟨hpc, ?_⟩, nlEsc st _ hc hpm _⟩
  apply bodyEsc st hc
  intro e he
  rw [List.mk_mem_enum_iff_getElem? (i := e.1) (x := e.2)] at he
  have hmem : e.2 ∈ (priorityPhase cfg st cfg.noKeyFields m true).map := by
    obtain ⟨hlt, heq⟩ := List.getElem?_eq_some.mp he
    exact heq ▸ List.getElem_mem hlt
  simp only [escFreeMap, List.all_eq_true] at hpm
  have h2 := hpm _ hmem
  simp only [Bool.and_eq_true, Bool.not_eq_true'] at h2
  exact h2



/-- C8, counterexample: with color forced off (`--color=never`), the output is
not escape-free for every input line — a line that fails to parse is passed
through verbatim, so an input line containing an ANSI escape sequence puts
that escape sequence in the output. -/
theorem c8_counterexample :
    (Styler.new .never false).colorize = false ∧
    hasChar (processLineStr defaultCfg (Styler.new .never false)
      "\x1b[31mred raw line") '\x1b' = true :=
  ⟨rfl, by decide⟩

/-- C8 (amended): when colorization is disabled every styling role
(`depth`, `level`, `timestamp`, and the multi-part depth style) resolves to
the identity, and the renderer itself introduces no ANSI escape sequence:
for every configuration, the record produced from any parsed map whose keys
and strings are free of the escape character is itself free of the escape
character (escapes can still reach the output only from the input itself,
e.g. pass-through lines or `\u001b` escapes decoded inside JSON strings). -/
theorem c8_plain_styles_no_escape (cfg : Cfg) (st : Styler) (m : JMap)
    (hc : st.colorize = false) (hm : escFreeMap m = true) :
    ((∀ val depth, st.depth val depth = val) ∧ (∀ s, st.level s = s) ∧
     (∀ s, st.timestamp s = s) ∧
     (∀ v e depth, st.depthMulti v e depth = v ++ e)) ∧
    hasChar (recordText m cfg st) '\x1b' = false :=
  ⟨styler_plain st hc, record_escFree m cfg st hc hm⟩

/-- C8 witness: the amended theorem applied at `--color=never` and the map
`{"msg": "hello"}`. -/
theorem c8_witness :
    (Styler.new .never false).colorize = false ∧
    escFreeMap [("msg", JsonValue.string "hello")] = true ∧
    hasChar (recordText [("msg", JsonValue.string "hello")] defaultCfg
      (Styler.new .never false)) '\x1b' = false :=
  ⟨rfl, by decide,
    (c8_plain_styles_no_escape defaultCfg (Styler.new .never false)
      [("msg", JsonValue.string "hello")] rfl (by decide)).2⟩

end JLP
